import Mathlib

/-!
# Verification of `pydantic-openapi-helper`

A shallow embedding of the repository's three source files
(`core.py`, `helper.py`, `inheritance.py`) and proofs about the
polymorphism compiler (`set_inheritance`, `get_schemas_inheritance`)
and the schema normalizer (`get_openapi`, `set_format`, `create_tag`).

Python dictionaries are modelled as insertion-ordered association lists
(`Dict`), Python values as the JSON-like type `JVal`, Python exceptions
as `NormErr` / `TopErr`, and the recursive conflict resolution of
`set_inheritance` with an explicit attempt budget (`fuel`), where `none`
means the recursion has not finished within the budget.
-/

/-- A Python/JSON value as it appears in the schema dictionaries. -/
inductive JVal where
  | str : String → JVal
  | int : Int → JVal
  | bool : Bool → JVal
  | null : JVal
  | arr : List JVal → JVal
  | obj : List (String × JVal) → JVal
deriving Repr

/- Python `==` on schema values (structural; dictionary order is kept,
which agrees with Python on every dictionary built by this code). -/
mutual
def JVal.beq : JVal → JVal → Bool
  | .str a, .str b => a == b
  | .int a, .int b => a == b
  | .bool a, .bool b => a == b
  | .null, .null => true
  | .arr a, .arr b => JVal.beqList a b
  | .obj a, .obj b => JVal.beqObj a b
  | _, _ => false
def JVal.beqList : List JVal → List JVal → Bool
  | [], [] => true
  | x :: xs, y :: ys => JVal.beq x y && JVal.beqList xs ys
  | _, _ => false
def JVal.beqObj : List (String × JVal) → List (String × JVal) → Bool
  | [], [] => true
  | (k, v) :: xs, (l, w) :: ys => k == l && JVal.beq v w && JVal.beqObj xs ys
  | _, _ => false
end

mutual
theorem JVal.beq_iff : ∀ a b, JVal.beq a b = true ↔ a = b
  | .str a, .str b => by simp [JVal.beq]
  | .int a, .int b => by simp [JVal.beq]
  | .bool a, .bool b => by simp [JVal.beq]
  | .null, .null => by simp [JVal.beq]
  | .arr a, .arr b => by simp [JVal.beq, JVal.beqList_iff a b]
  | .obj a, .obj b => by simp [JVal.beq, JVal.beqObj_iff a b]
  | .str _, .int _ => by simp [JVal.beq]
  | .str _, .bool _ => by simp [JVal.beq]
  | .str _, .null => by simp [JVal.beq]
  | .str _, .arr _ => by simp [JVal.beq]
  | .str _, .obj _ => by simp [JVal.beq]
  | .int _, .str _ => by simp [JVal.beq]
  | .int _, .bool _ => by simp [JVal.beq]
  | .int _, .null => by simp [JVal.beq]
  | .int _, .arr _ => by simp [JVal.beq]
  | .int _, .obj _ => by simp [JVal.beq]
  | .bool _, .str _ => by simp [JVal.beq]
  | .bool _, .int _ => by simp [JVal.beq]
  | .bool _, .null => by simp [JVal.beq]
  | .bool _, .arr _ => by simp [JVal.beq]
  | .bool _, .obj _ => by simp [JVal.beq]
  | .null, .str _ => by simp [JVal.beq]
  | .null, .int _ => by simp [JVal.beq]
  | .null, .bool _ => by simp [JVal.beq]
  | .null, .arr _ => by simp [JVal.beq]
  | .null, .obj _ => by simp [JVal.beq]
  | .arr _, .str _ => by simp [JVal.beq]
  | .arr _, .int _ => by simp [JVal.beq]
  | .arr _, .bool _ => by simp [JVal.beq]
  | .arr _, .null => by simp [JVal.beq]
  | .arr _, .obj _ => by simp [JVal.beq]
  | .obj _, .str _ => by simp [JVal.beq]
  | .obj _, .int _ => by simp [JVal.beq]
  | .obj _, .bool _ => by simp [JVal.beq]
  | .obj _, .null => by simp [JVal.beq]
  | .obj _, .arr _ => by simp [JVal.beq]
theorem JVal.beqList_iff : ∀ a b, JVal.beqList a b = true ↔ a = b
  | [], [] => by simp [JVal.beqList]
  | x :: xs, y :: ys => by
      simp [JVal.beqList, JVal.beq_iff x y, JVal.beqList_iff xs ys]
  | [], _ :: _ => by simp [JVal.beqList]
  | _ :: _, [] => by simp [JVal.beqList]
theorem JVal.beqObj_iff : ∀ a b, JVal.beqObj a b = true ↔ a = b
  | [], [] => by simp [JVal.beqObj]
  | (k, v) :: xs, (l, w) :: ys => by
      simp only [JVal.beqObj, List.cons.injEq, Prod.mk.injEq, Bool.and_eq_true,
        beq_iff_eq, JVal.beq_iff v w, JVal.beqObj_iff xs ys]
  | [], _ :: _ => by simp [JVal.beqObj]
  | _ :: _, [] => by simp [JVal.beqObj]
end

instance : DecidableEq JVal := fun a b => decidable_of_iff _ (JVal.beq_iff a b)

/-- Python `bool(v)` for the values the code branches on. -/
def JVal.truthy : JVal → Bool
  | .str s => !(s == "")
  | .int n => !(n == 0)
  | .bool b => b
  | .null => false
  | .arr l => !l.isEmpty
  | .obj o => !o.isEmpty

/-- A Python dictionary of schema values: an insertion-ordered
association list (Python dictionaries preserve insertion order). -/
abbrev Dict := List (String × JVal)

/-- `d[k]` / `d.get(k)`: the value at the first occurrence of `k`
(a Python dictionary holds each key once, so "first" is exact). -/
def aGet {α : Type} (d : List (String × α)) (k : String) : Option α :=
  match d with
  | [] => none
  | (k', v) :: tl => if k' = k then some v else aGet tl k

/-- `d[k] = v`: overwrite in place when the key exists, append otherwise. -/
def aSet {α : Type} (d : List (String × α)) (k : String) (v : α) : List (String × α) :=
  match d with
  | [] => [(k, v)]
  | (k', v') :: tl => if k' = k then (k', v) :: tl else (k', v') :: aSet tl k v

/-- `aGet` on a schema dictionary. -/
def dGet (d : Dict) (k : String) : Option JVal := aGet d k

/-- `k in d`. -/
def dHas (d : Dict) (k : String) : Bool := (aGet d k).isSome

/-- `aSet` on a schema dictionary. -/
def dSet (d : Dict) (k : String) (v : JVal) : Dict := aSet d k v

theorem dGet_sizeOf {d : Dict} {k : String} {v : JVal}
    (h : dGet d k = some v) : sizeOf v < sizeOf d := by
  induction d with
  | nil => simp [dGet, aGet] at h
  | cons hd tl ih =>
    obtain ⟨k', v'⟩ := hd
    by_cases hk : k' = k
    · simp [dGet, aGet, hk] at h
      subst h
      simp
      omega
    · simp only [dGet, aGet, hk, if_false] at h
      have := ih (by simpa [dGet] using h)
      simp
      omega

/-- Python `<` on strings: lexicographic comparison of code points. -/
def pyCharsLt : List Char → List Char → Bool
  | [], [] => false
  | [], _ :: _ => true
  | _ :: _, [] => false
  | a :: as, b :: bs =>
      if a.toNat < b.toNat then true
      else if b.toNat < a.toNat then false
      else pyCharsLt as bs

/-- Python `<=` on strings. -/
def pyStrLe (a b : String) : Bool := !pyCharsLt b.data a.data

/-- A stable insertion of `a` into a list sorted by `pyStrLe`. -/
def pyInsert (a : String) : List String → List String
  | [] => [a]
  | b :: bs => if pyStrLe a b then a :: b :: bs else b :: pyInsert a bs

/-- Python `list.sort()` for a list of strings (any correct sort: equal
strings are indistinguishable, so stability is unobservable). -/
def pySort : List String → List String
  | [] => []
  | a :: as => pyInsert a (pySort as)

theorem pyCharsLt_asymm : ∀ a b, pyCharsLt a b = true → pyCharsLt b a = true → False
  | [], [], h, _ => by simp [pyCharsLt] at h
  | [], _ :: _, _, h' => by simp [pyCharsLt] at h'
  | _ :: _, [], h, _ => by simp [pyCharsLt] at h
  | a :: as, b :: bs, h, h' => by
      simp only [pyCharsLt] at h h'
      by_cases h1 : a.toNat < b.toNat
      · rw [if_neg (by omega), if_pos h1] at h'
        exact Bool.false_ne_true h'
      · by_cases h2 : b.toNat < a.toNat
        · rw [if_neg h1, if_pos h2] at h
          exact Bool.false_ne_true h
        · rw [if_neg h1, if_neg h2] at h
          rw [if_neg h2, if_neg h1] at h'
          exact pyCharsLt_asymm as bs h h'

theorem pyStrLe_total (a b : String) : pyStrLe a b = true ∨ pyStrLe b a = true := by
  unfold pyStrLe
  by_cases h : pyCharsLt b.data a.data = true
  · right
    by_cases h' : pyCharsLt a.data b.data = true
    · exact absurd (pyCharsLt_asymm _ _ h h') (fun f => f)
    · simpa using h'
  · left
    simpa using h

theorem pyCharsLt_trans : ∀ a b c, pyCharsLt a b = true → pyCharsLt b c = true →
    pyCharsLt a c = true
  | [], [], _, h, _ => by simp [pyCharsLt] at h
  | [], _ :: _, [], _, h' => by simp [pyCharsLt] at h'
  | [], _ :: _, _ :: _, _, _ => by simp [pyCharsLt]
  | _ :: _, [], _, h, _ => by simp [pyCharsLt] at h
  | _ :: _, _ :: _, [], _, h' => by simp [pyCharsLt] at h'
  | a :: as, b :: bs, c :: cs, h, h' => by
      simp only [pyCharsLt] at h h' ⊢
      by_cases h1 : a.toNat < b.toNat
      · by_cases h3 : b.toNat < c.toNat
        · rw [if_pos (by omega : a.toNat < c.toNat)]
        · by_cases h4 : c.toNat < b.toNat
          · rw [if_neg h3, if_pos h4] at h'
            exact absurd h' Bool.false_ne_true
          · rw [if_pos (by omega : a.toNat < c.toNat)]
      · by_cases h2 : b.toNat < a.toNat
        · rw [if_neg h1, if_pos h2] at h
          exact absurd h Bool.false_ne_true
        · rw [if_neg h1, if_neg h2] at h
          by_cases h3 : b.toNat < c.toNat
          · rw [if_pos (by omega : a.toNat < c.toNat)]
          · by_cases h4 : c.toNat < b.toNat
            · rw [if_neg h3, if_pos h4] at h'
              exact absurd h' Bool.false_ne_true
            · rw [if_neg h3, if_neg h4] at h'
              rw [if_neg (by omega : ¬ a.toNat < c.toNat),
                if_neg (by omega : ¬ c.toNat < a.toNat)]
              exact pyCharsLt_trans as bs cs h h'

theorem pyCharsLt_connected : ∀ a b, a = b ∨ pyCharsLt a b = true ∨ pyCharsLt b a = true
  | [], [] => Or.inl rfl
  | [], _ :: _ => Or.inr (Or.inl (by simp [pyCharsLt]))
  | _ :: _, [] => Or.inr (Or.inr (by simp [pyCharsLt]))
  | a :: as, b :: bs => by
      by_cases h1 : a.toNat < b.toNat
      · exact Or.inr (Or.inl (by simp [pyCharsLt, h1]))
      · by_cases h2 : b.toNat < a.toNat
        · refine Or.inr (Or.inr ?_)
          simp only [pyCharsLt]
          rw [if_pos h2]
        · have hab : a = b := Char.eq_of_val_eq (UInt32.ext (by
            unfold Char.toNat at h1 h2; omega))
          rcases pyCharsLt_connected as bs with h | h | h
          · exact Or.inl (by rw [hab, h])
          · refine Or.inr (Or.inl ?_)
            simp only [pyCharsLt]
            rw [if_neg h1, if_neg h2]
            exact h
          · refine Or.inr (Or.inr ?_)
            simp only [pyCharsLt]
            rw [if_neg h2, if_neg h1]
            exact h

theorem pyStrLe_trans {a b c : String} (h : pyStrLe a b = true)
    (h' : pyStrLe b c = true) : pyStrLe a c = true := by
  simp only [pyStrLe, Bool.not_eq_true'] at h h' ⊢
  by_contra hc
  simp only [Bool.not_eq_false] at hc
  rcases pyCharsLt_connected b.data c.data with h1 | h1 | h1
  · rw [h1] at h
    rw [h] at hc
    exact Bool.false_ne_true hc
  · have := pyCharsLt_trans _ _ _ h1 hc
    rw [h] at this
    exact Bool.false_ne_true this
  · rw [h'] at h1
    exact Bool.false_ne_true h1

theorem pyInsert_perm (a : String) (l : List String) :
    List.Perm (pyInsert a l) (a :: l) := by
  induction l with
  | nil => simp [pyInsert]
  | cons b bs ih =>
    simp only [pyInsert]
    by_cases h : pyStrLe a b = true
    · rw [if_pos h]
    · rw [if_neg h]
      exact (ih.cons b).trans (List.Perm.swap a b bs)

theorem pySort_perm (l : List String) : List.Perm (pySort l) l := by
  induction l with
  | nil => simp [pySort]
  | cons a as ih =>
    exact (pyInsert_perm a (pySort as)).trans (ih.cons a)

theorem pyInsert_sorted (a : String) (l : List String)
    (h : l.Pairwise (fun x y => pyStrLe x y = true)) :
    (pyInsert a l).Pairwise (fun x y => pyStrLe x y = true) := by
  induction l with
  | nil => simp [pyInsert]
  | cons b bs ih =>
    rw [List.pairwise_cons] at h
    simp only [pyInsert]
    by_cases hab : pyStrLe a b = true
    · rw [if_pos hab]
      refine List.pairwise_cons.mpr ⟨?_, List.pairwise_cons.mpr h⟩
      intro x hx
      rcases List.mem_cons.mp hx with rfl | hx
      · exact hab
      · exact pyStrLe_trans hab (h.1 x hx)
    · rw [if_neg hab]
      refine List.pairwise_cons.mpr ⟨?_, ih h.2⟩
      intro x hx
      have hx' : x ∈ a :: bs := (pyInsert_perm a bs).mem_iff.mp hx
      rcases List.mem_cons.mp hx' with rfl | hx'
      · rcases pyStrLe_total b x with hbx | hxb
        · exact hbx
        · exact absurd hxb hab
      · exact h.1 x hx'

theorem pySort_sorted (l : List String) :
    (pySort l).Pairwise (fun x y => pyStrLe x y = true) := by
  induction l with
  | nil => simp [pySort]
  | cons a as ih => exact pyInsert_sorted a (pySort as) ih

/-- The Python exceptions the embedded code can raise, other than the
`ValueError` of `get_openapi` (which has its own constructor in `TopErr`). -/
inductive NormErr where
  | keyError
  | typeError
  | indexError
deriving DecidableEq, Repr

/-- Python `str.lower`, character by character (`Char.toLower`; exact
for the ASCII class names this code handles). -/
def pyLower (s : String) : String := ⟨s.data.map Char.toLower⟩

/-- `helper.create_tag`: the redocly viewer tag derived from a class name. -/
def create_tag (name : String) : String × Dict :=
  let model_name := pyLower name ++ "_model"
  (model_name,
    [("name", .str model_name),
     ("x-displayName", .str name),
     ("description",
      .str ("<SchemaDefinition schemaRef=\"#/components/schemas/" ++ name ++ "\" />\n"))])

/-- `helper.set_format`: default numeric formats, recursing into array
items. A `KeyError` is raised when the property has neither `$ref` nor
`type`, or is an array without `items`; a non-dictionary property is
modelled as a `TypeError`. -/
def set_format : JVal → Except NormErr JVal
  | .obj o =>
    if dHas o "$ref" then .ok (.obj o)
    else
      match dGet o "type" with
      | none => .error .keyError
      | some t =>
        if t = .str "number" ∧ ¬ dHas o "format" then
          .ok (.obj (dSet o "format" (.str "double")))
        else if t = .str "integer" ∧ ¬ dHas o "format" then
          .ok (.obj (dSet o "format" (.str "int32")))
        else if t = .str "array" then
          match hit : dGet o "items" with
          | none => .error .keyError
          | some items =>
            if items.truthy then
              match set_format items with
              | .ok items2 => .ok (.obj (dSet o "items" items2))
              | .error e => .error e
            else .ok (.obj o)
        else .ok (.obj o)
  | _ => .error .typeError
termination_by p => sizeOf p
decreasing_by
  have hlt := dGet_sizeOf hit
  simp only [JVal.obj.sizeOf_spec]
  omega

/-- `helper._OpenAPIGenBaseModel`'s schema as the external structural
schema generator (pydantic's `model_json_schema`) emits it: a single
string field `type` with default `InvalidType`. The generator is the
out-of-scope collaborator, so this constant transcribes its output for
the class defined in `helper.py`. -/
def _OpenAPIGenBaseModel_schema : Dict :=
  [("properties", .obj [("type", .obj
      [("default", .str "InvalidType"),
       ("description",
        .str "A base class to use when there is no baseclass available to fall on."),
       ("title", .str "Type"),
       ("type", .str "string")])]),
   ("title", .str "_OpenAPIGenBaseModel"),
   ("type", .str "object")]

/-- `helper.inherit_fom_basemodel`: wrap a schema as a composition over
`_OpenAPIGenBaseModel`. `title` and `description` stay on the outer
object; every other key goes into the `allOf[1]` extension. The source
interleaves the two destinations over one iteration; since they are
disjoint dictionaries the two accumulating folds below are the same. -/
def inherit_fom_basemodel (model : Dict) : Dict :=
  let step := fun (s : Dict × Dict) (kv : String × JVal) =>
    if kv.1 = "title" ∨ kv.1 = "description" then (dSet s.1 kv.1 kv.2, s.2)
    else (s.1, dSet s.2 kv.1 kv.2)
  let s := model.foldl step ([], [("type", .str "object"), ("properties", .obj [])])
  ("allOf", .arr
    [.obj [("$ref", .str "#/components/schemas/_OpenAPIGenBaseModel")],
     .obj s.2]) :: s.1


/-- `object_dict.get('required', [])` as a list of its items. A non-list
value is modelled as a `TypeError` (the code iterates it / uses `in`). -/
def getRequiredList (d : Dict) : Except NormErr (List JVal) :=
  match dGet d "required" with
  | none => .ok []
  | some (.arr l) => .ok l
  | some _ => .error .typeError

/-- `object_dict.get('properties', {})`; a non-dictionary value is a
`TypeError` (the code calls `.items()` on it). -/
def getPropsDict (d : Dict) : Except NormErr Dict :=
  match dGet d "properties" with
  | none => .ok []
  | some (.obj o) => .ok o
  | some _ => .error .typeError

/-- `inheritance.set_inheritance`, first collection loop: the union (in
chain order) of the ancestors' `required` lists. An ancestor name absent
from `schemas` is skipped (`except KeyError: continue`). -/
def collect_required : List String → Dict → Except NormErr (List JVal)
  | [], _ => .ok []
  | t :: rest, schemas =>
    match dGet schemas t with
    | none => collect_required rest schemas
    | some (.obj st) =>
      match getRequiredList st with
      | .error e => .error e
      | .ok l =>
        match collect_required rest schemas with
        | .error e => .error e
        | .ok l' => .ok (l ++ l')
    | some _ => .error .typeError

/-- The per-field "shape signature" stored in `top_classes_prop`: the
raw `dt['type']` value, the pair `(dt['type'], dt.get('items'))` for
arrays, or the literal string `'###'` when `dt` has no `type` key. -/
inductive Sig where
  | val : JVal → Sig
  | tup : JVal → Option JVal → Sig
deriving DecidableEq, Repr

/-- The signature of one ancestor property schema `dt`. -/
def sigOfProp (dt : Dict) : Sig :=
  match dGet dt "type" with
  | none => .val (.str "###")
  | some t => if t = .str "array" then .tup t (dGet dt "items") else .val t

/-- Record the signatures of one ancestor's properties into the
accumulated `top_classes_prop` (later ancestors overwrite earlier
entries, as the source's dictionary assignment does). -/
def sigsFromProps : Dict → List (String × Sig) → Except NormErr (List (String × Sig))
  | [], acc => .ok acc
  | (pn, .obj dt) :: rest, acc => sigsFromProps rest (aSet acc pn (sigOfProp dt))
  | (_, _) :: _, _ => .error .typeError

/-- `inheritance.set_inheritance`, second collection loop: the map from
field name to shape signature across the chain; missing ancestors are
skipped. -/
def collect_sigs : List String → Dict → List (String × Sig) →
    Except NormErr (List (String × Sig))
  | [], _, acc => .ok acc
  | t :: rest, schemas, acc =>
    match dGet schemas t with
    | none => collect_sigs rest schemas acc
    | some (.obj st) =>
      match dGet st "properties" with
      | none => collect_sigs rest schemas acc
      | some (.obj props) =>
        match sigsFromProps props acc with
        | .error e => .error e
        | .ok acc2 => collect_sigs rest schemas acc2
      | some _ => .error .typeError
    | some _ => .error .typeError

/-- `inheritance._check_object_types` together with the second disjunct
at its call site: is the property `vo` in conflict with the collected
ancestor signature `sig`? -/
def conflict_with (vo : Dict) (sig : Sig) : Bool :=
  (match dGet vo "type" with
   | none => false
   | some t =>
     if t = .str "array" then decide (Sig.tup t (dGet vo "items") ≠ sig)
     else decide (Sig.val t ≠ sig))
  || (!(dHas vo "type") && (dHas vo "allOf" || dHas vo "anyOf"))

/-- `required_delta cur anc`: the `required` list placed in the
extension, from the object's own list and the ancestors' union. -/
def required_delta (cur anc : List JVal) : List JVal :=
  if anc.isEmpty ∧ ¬ cur.isEmpty then cur
  else if ¬ cur.isEmpty ∧ ¬ anc.isEmpty then cur.filter (fun r => ¬ r ∈ anc)
  else []

/-- The outcome of the property-extension loop of one attempt. -/
inductive ExtendRes where
  | done : Dict → ExtendRes
  | conflict : ExtendRes
  | err : NormErr → ExtendRes
deriving DecidableEq, Repr

/-- `inheritance.set_inheritance`, extension loop: copy fields absent
from the ancestors' signature map; stop at the first conflicting field. -/
def extend_props : Dict → List (String × Sig) → Dict → ExtendRes
  | [], _, acc => .done acc
  | (prop, v) :: rest, tcp, acc =>
    match aGet tcp prop with
    | none => extend_props rest tcp (dSet acc prop v)
    | some sig =>
      match v with
      | .obj vo => if conflict_with vo sig then .conflict else extend_props rest tcp acc
      | _ => .err .typeError

/-- The keys `set_inheritance` treats specially (`copied_keys`). -/
def copied_keys : List String := ["type", "properties", "required", "additionalProperties"]

/-- The outcome of one attempt of `set_inheritance`. -/
inductive Att where
  | ok : Dict → Att
  | conflict : Att
  | err : NormErr → Att
deriving DecidableEq, Repr

/-- One attempt of `inheritance.set_inheritance` for an already-trimmed
chain `tc` whose head is `topClass`: enum pass-through, the two
collection loops, the required delta, the extension loop, the special
`type` / `additionalProperties` copies, and the copy of the remaining
top-level keys onto the outer object. -/
def set_inheritance_attempt (name : String) (tc : List String) (topClass : String)
    (schemas : Dict) : Att :=
  match dGet schemas name with
  | none => .err .keyError
  | some (.obj object_dict) =>
    if dHas object_dict "enum" then .ok object_dict
    else
      match collect_required tc schemas with
      | .error e => .err e
      | .ok tcr =>
        match collect_sigs tc schemas [] with
        | .error e => .err e
        | .ok tcp =>
          match getRequiredList object_dict with
          | .error e => .err e
          | .ok cur =>
            let reqd := required_delta cur tcr
            match getPropsDict object_dict with
            | .error e => .err e
            | .ok props =>
              match extend_props props tcp [] with
              | .err e => .err e
              | .conflict => .conflict
              | .done ext_props0 =>
                let ext_props := match dGet props "type" with
                  | some tv => dSet ext_props0 "type" tv
                  | none => ext_props0
                let ext : Dict :=
                  ("type", .str "object") ::
                  ((if reqd.isEmpty then [] else [("required", .arr reqd)]) ++
                   [("properties", .obj ext_props)])
                let ext2 := match dGet object_dict "additionalProperties" with
                  | some av => dSet ext "additionalProperties" av
                  | none => ext
                let outer : Dict :=
                  [("allOf", .arr
                    [.obj [("$ref", .str ("#/components/schemas/" ++ topClass))],
                     .obj ext2])]
                .ok ((object_dict.filter (fun kv => ¬ kv.1 ∈ copied_keys)).foldl
                      (fun d kv => dSet d kv.1 kv.2) outer)
  | some _ => .err .typeError

/-- `inheritance.set_inheritance`. `fuel` bounds the number of recursive
attempts; `none` means the recursion did not finish within `fuel`
attempts. The source first drops the class itself (`top_classes[1:]`,
an `IndexError` when nothing remains), runs one attempt against the
remaining chain, and on a field conflict retries against the same
trimmed chain when more than one ancestor remains, or against
`[_OpenAPIGenBaseModel, _OpenAPIGenBaseModel]` otherwise. -/
def set_inheritance : Nat → String → List String → Dict → Option (Except NormErr Dict)
  | 0, _, _, _ => none
  | fuel + 1, name, top_classes, schemas =>
    match top_classes.tail with
    | [] => some (.error .indexError)
    | topClass :: rest =>
      match set_inheritance_attempt name (topClass :: rest) topClass schemas with
      | .ok d => some (.ok d)
      | .err e => some (.error e)
      | .conflict =>
        match rest with
        | _ :: _ => set_inheritance fuel name (topClass :: rest) schemas
        | [] =>
          set_inheritance fuel name
            ["_OpenAPIGenBaseModel", "_OpenAPIGenBaseModel"] schemas

/-- `inheritance.get_schemas_inheritance`, collection phase: for each
entry of the document (in order), an unmapped name (an enum or an
auxiliary definition) is skipped; a mapped name with no ancestors is
wrapped over the universal base (except the universal base itself); a
mapped name with ancestors goes through `set_inheritance`. `ancOf`
plays `get_ancestors`' role: the precomputed ancestor chain (the class
itself first) of each mapped class name. -/
def gsi_updates (ancOf : List (String × List String)) (schemas : Dict) (fuel : Nat) :
    List (String × JVal) → Option (Except NormErr (List (String × JVal)))
  | [] => some (.ok [])
  | (name, v) :: rest =>
    let next := fun (upd : Option (String × JVal)) =>
      match gsi_updates ancOf schemas fuel rest with
      | none => none
      | some (.error e) => some (.error e)
      | some (.ok l) => some (.ok (match upd with | some u => u :: l | none => l))
    match aGet ancOf name with
    | none => next none
    | some tcs =>
      if tcs.isEmpty then
        if name = "_OpenAPIGenBaseModel" then next none
        else
          match v with
          | .obj m => next (some (name, .obj (inherit_fom_basemodel m)))
          | _ => some (.error .typeError)
      else
        match set_inheritance fuel name tcs schemas with
        | none => none
        | some (.error e) => some (.error e)
        | some (.ok d) => next (some (name, .obj d))

/-- `inheritance.get_schemas_inheritance`, given the assembled schema
document (the collaborator's output for every discovered model, with
the `_OpenAPIGenBaseModel` entry already injected) and the precomputed
ancestor chains: collect the updated entries, then write them back. -/
def get_schemas_inheritance (ancOf : List (String × List String)) (schemas : Dict)
    (fuel : Nat) : Option (Except NormErr Dict) :=
  match gsi_updates ancOf schemas fuel schemas with
  | none => none
  | some (.error e) => some (.error e)
  | some (.ok updates) =>
    some (.ok (updates.foldl (fun acc u => dSet acc u.1 u.2) schemas))

/-- The exceptions `core.get_openapi` can raise: its own `ValueError`
for a missing version, or anything from the normalization loop. -/
inductive TopErr where
  | valueError
  | norm : NormErr → TopErr
deriving DecidableEq, Repr

/-- `core.get_openapi`, per-property format loop: `set_format`, with a
`KeyError` caught and mapped to the `anyOf` branch (each branch put
through `set_format`), or left alone when there is no `anyOf`. -/
def set_format_prop (p : JVal) : Except NormErr JVal :=
  match set_format p with
  | .ok p2 => .ok p2
  | .error .keyError =>
    match p with
    | .obj o =>
      if dHas o "anyOf" then
        match dGet o "anyOf" with
        | some (.arr items) =>
          match items.mapM set_format with
          | .ok l => .ok (.obj (dSet o "anyOf" (.arr l)))
          | .error e => .error e
        | _ => .error .typeError
      else .ok (.obj o)
    | _ => .ok p
  | .error e => .error e

/-- Where an entry's local properties live: at top level, or inside the
composition's `allOf[1]`. -/
inductive PLoc where
  | top
  | comp
deriving DecidableEq, Repr

/-- The normalizer's property lookup: `s['properties']` when present,
`None` for an enum entry (the loop's `continue`), otherwise
`s['allOf'][1]['properties']` with the errors the raw indexing can
raise. -/
def local_props (s : Dict) : Except NormErr (Option (Dict × PLoc)) :=
  if dHas s "properties" then
    match dGet s "properties" with
    | some (.obj props) => .ok (some (props, .top))
    | _ => .error .typeError
  else if dHas s "enum" then .ok none
  else
    match dGet s "allOf" with
    | none => .error .keyError
    | some (.arr l) =>
      match l.get? 1 with
      | none => .error .indexError
      | some (.obj inner) =>
        match dGet inner "properties" with
        | none => .error .keyError
        | some (.obj props) => .ok (some (props, .comp))
        | some _ => .error .typeError
      | some _ => .error .typeError
    | some _ => .error .typeError

/-- Write the (possibly rewritten) local properties back into the entry,
at the place `local_props` took them from. -/
def write_props (s : Dict) (loc : PLoc) (props : Dict) : Dict :=
  match loc with
  | .top => dSet s "properties" (.obj props)
  | .comp =>
    match dGet s "allOf" with
    | some (.arr l) =>
      match l.get? 1 with
      | some (.obj inner) =>
          dSet s "allOf" (.arr (l.set 1 (.obj (dSet inner "properties" (.obj props)))))
      | _ => s
    | _ => s

/-- The normalizer's `required` lookup for the sorting step:
`s['required']`, or `s['allOf'][1]['required']` with only its `KeyError`
caught (the loop's `continue`, returned as `none`). -/
def required_for_sort (s : Dict) : Except NormErr (Option (List JVal)) :=
  if dHas s "required" then
    match dGet s "required" with
    | some (.arr l) => .ok (some l)
    | _ => .error .typeError
  else if dHas s "allOf" then
    match dGet s "allOf" with
    | some (.arr l) =>
      match l.get? 1 with
      | some (.obj inner) =>
        match dGet inner "required" with
        | none => .ok none
        | some (.arr rl) => .ok (some rl)
        | some _ => .error .typeError
      | none => .error .indexError
      | some _ => .error .typeError
    | some _ => .error .typeError
    | none => .ok none
  else .ok none

/-- The `for prop in properties` format loop of `core.get_openapi`: each
property value is put through `set_format_prop` in order, stopping at
the first exception (the Python loop mutates in place and lets the
exception propagate). -/
def format_pass : Dict → Except NormErr Dict
  | [] => .ok []
  | (k, v) :: rest =>
    match set_format_prop v with
    | .error e => .error e
    | .ok v2 =>
      match format_pass rest with
      | .error e => .error e
      | .ok rest2 => .ok ((k, v2) :: rest2)

/-- The loop body of `core.get_openapi` for one schema entry (after the
tag was appended): mark or synthesize the `type` property, add the
discriminator, run the format pass over every property, and move the
required properties to the front. An enum entry is returned unchanged. -/
def process_entry (name : String) (s : Dict) : Except NormErr Dict :=
  match local_props s with
  | .error e => .error e
  | .ok none => .ok s
  | .ok (some (props, loc)) =>
    match ((match dGet props "type" with
           | some (.obj t) => .ok (dSet props "type" (.obj (dSet t "readOnly" (.bool true))))
           | some _ => .error NormErr.typeError
           | none => .ok (dSet props "type" (.obj
               [("title", .str "Type"), ("default", .str name), ("type", .str "string"),
                ("pattern", .str ("^" ++ name ++ "$")), ("readOnly", .bool true)]))) :
          Except NormErr Dict) with
    | .error e => .error e
    | .ok props1 =>
      let s1 := dSet s "discriminator" (.obj [("propertyName", .str "type")])
      match format_pass props1 with
      | .error e => .error e
      | .ok props2 =>
        let s2 := write_props s1 loc props2
        match required_for_sort s2 with
        | .error e => .error e
        | .ok none => .ok s2
        | .ok (some required) =>
          let pred := fun (kv : String × JVal) => decide ((JVal.str kv.1) ∈ required)
          let sorted_props := props2.filter pred ++ props2.filter (fun kv => !(pred kv))
          .ok (write_props s2 loc sorted_props)

/-- The whole per-schema loop of `core.get_openapi`: names in sorted
order; a tag is created for every entry (enums included); the entries
are rewritten in place. Returns (tags, tag names, updated document). -/
def process_names : List String → Dict → Except NormErr (List JVal × List String × Dict)
  | [], acc => .ok ([], [], acc)
  | n :: rest, acc =>
    let mt := create_tag n
    match dGet acc n with
    | none => .error .keyError
    | some (.obj so) =>
      match process_entry n so with
      | .error e => .error e
      | .ok so2 =>
        match process_names rest (dSet acc n (.obj so2)) with
        | .error e => .error e
        | .ok (tags, tagNames, acc2) => .ok (.obj mt.2 :: tags, mt.1 :: tagNames, acc2)
    | some _ => .error .typeError

/-- `core.get_openapi`'s loop over `sorted(schemas.keys())`. -/
def process_all (schemas : Dict) : Except NormErr (List JVal × List String × Dict) :=
  process_names (pySort (schemas.map (fun kv => kv.1))) schemas

/-- The module-level mutable state `core._base_open_api` reaches across
invocations of `get_openapi`: the function shallow-copies the template,
so its `info` dictionary, the inner `x-tagGroups[0]` dictionary and the
`components` dictionary stay shared and are written through. (`servers`,
`paths` and `externalDocs` are shared too but never mutated, and the
top-level `tags` key is rebound on the copy, not mutated.) -/
structure GState where
  info : Dict
  tagGroupTags : List String
  componentsSchemas : Dict
deriving DecidableEq, Repr

/-- The template's state when the module is first loaded. -/
def initGState : GState := { info := [], tagGroupTags := [], componentsSchemas := [] }

/-- The arguments of `core.get_openapi` other than `base_object` /
`inheritance`: the schema document those two produce through the
external structural generator is passed separately (`schemas`). -/
structure GArgs where
  title : Option String
  version : Option String
  openapi_version : String
  description : Option String
  info : Option Dict
  external_docs : Option Dict
deriving DecidableEq, Repr

/-- Python truthiness of an optional string argument. -/
def truthyStr : Option String → Bool
  | none => false
  | some s => !(s == "")

/-- Python truthiness of an optional dictionary argument. -/
def truthyDict : Option Dict → Bool
  | none => false
  | some d => !d.isEmpty

/-- `core.get_openapi` over the mutable template state `g` and the
already-generated schema document: returns the state the template is
left in together with the returned document (or the exception). A
falsy `info` argument leaves the template's own `info` dictionary in
place, so `title` / `version` / `description` are then written through
to the template. The `title` write happens before the version check. -/
def write_title (a : GArgs) (i : Dict) : Dict :=
  if truthyStr a.title then dSet i "title" (.str (a.title.getD "")) else i

/-- The `info['version']` and `info['description']` writes performed
after the version check. -/
def write_ver_desc (a : GArgs) (i : Dict) : Dict :=
  let i2 := dSet i "version" (.str (a.version.getD ""))
  if truthyStr a.description then dSet i2 "description" (.str (a.description.getD "")) else i2

/-- `core.get_openapi` over the mutable template state `g` and the
already-generated schema document: returns the state the template is
left in together with the returned document (or the exception). -/
def get_openapi (g : GState) (a : GArgs) (schemas : Dict) : GState × Except TopErr Dict :=
  let infoGlobal := ¬ truthyDict a.info
  let info0 := if truthyDict a.info then a.info.getD [] else g.info
  let info1 := write_title a info0
  let gInfo := fun (i : Dict) => if infoGlobal then i else g.info
  if ¬ truthyStr a.version then
    ({ g with info := gInfo info1 }, .error .valueError)
  else
    let info3 := write_ver_desc a info1
    let extDocs : Dict := if truthyDict a.external_docs then a.external_docs.getD [] else []
    match process_all schemas with
    | .error e => ({ g with info := gInfo info3 }, .error (.norm e))
    | .ok (tags, tagNames, schemas2) =>
      let tagNamesSorted := pySort tagNames
      let out : Dict :=
        [("openapi", .str a.openapi_version),
         ("servers", .arr []),
         ("info", .obj info3),
         ("externalDocs", .obj extDocs),
         ("tags", .arr tags),
         ("x-tagGroups", .arr [.obj [("name", .str "Models"),
            ("tags", .arr (tagNamesSorted.map JVal.str))]]),
         ("paths", .obj []),
         ("components", .obj [("schemas", .obj schemas2)])]
      ({ info := gInfo info3, tagGroupTags := tagNamesSorted,
         componentsSchemas := schemas2 }, .ok out)

theorem aGet_aSet_self {α : Type} (d : List (String × α)) (k : String) (v : α) :
    aGet (aSet d k v) k = some v := by
  induction d with
  | nil => simp [aGet, aSet]
  | cons hd tl ih =>
    obtain ⟨k', v'⟩ := hd
    by_cases hk : k' = k
    · simp [aGet, aSet, hk]
    · simp [aGet, aSet, hk, ih]

theorem aGet_aSet_ne {α : Type} (d : List (String × α)) {k k' : String} (v : α)
    (h : k' ≠ k) : aGet (aSet d k' v) k = aGet d k := by
  induction d with
  | nil => simp [aGet, aSet, h]
  | cons hd tl ih =>
    obtain ⟨k0, v0⟩ := hd
    by_cases hk : k0 = k'
    · simp [aGet, aSet, hk, h]
    · simp only [aSet, hk, if_false, aGet]
      by_cases hk2 : k0 = k
      · simp [hk2]
      · simp [hk2, ih]

theorem aSet_of_aGet_eq {α : Type} {d : List (String × α)} {k : String} {v : α}
    (h : aGet d k = some v) : aSet d k v = d := by
  induction d with
  | nil => simp [aGet] at h
  | cons hd tl ih =>
    obtain ⟨k', v'⟩ := hd
    by_cases hk : k' = k
    · simp [aGet, hk] at h
      simp [aSet, hk, h]
    · simp only [aGet, hk, if_false] at h
      simp [aSet, hk, ih h]

theorem aGet_keys_none {α : Type} {d : List (String × α)} {k : String}
    (h : ∀ kv ∈ d, kv.1 ≠ k) : aGet d k = none := by
  induction d with
  | nil => rfl
  | cons hd tl ih =>
    simp only [aGet]
    rw [if_neg (h hd (List.mem_cons_self hd tl))]
    exact ih (fun kv hkv => h kv (List.mem_cons_of_mem hd hkv))

theorem aGet_append {α : Type} (A B : List (String × α)) (k : String) :
    aGet (A ++ B) k = match aGet A k with
                      | some v => some v
                      | none => aGet B k := by
  induction A with
  | nil => simp [aGet]
  | cons hd tl ih =>
    obtain ⟨k', v'⟩ := hd
    by_cases hk : k' = k
    · simp [aGet, hk]
    · simp [aGet, hk, ih]

theorem keys_aSet {α : Type} (d : List (String × α)) (k : String) (v : α) :
    (aSet d k v).map Prod.fst = d.map Prod.fst ∨
    (aSet d k v).map Prod.fst = d.map Prod.fst ++ [k] := by
  induction d with
  | nil => right; simp [aSet]
  | cons hd tl ih =>
    obtain ⟨k', v'⟩ := hd
    by_cases hk : k' = k
    · left; simp [aSet, hk]
    · rcases ih with h | h
      · left; simp [aSet, hk, h]
      · right; simp [aSet, hk, h]

theorem aGet_foldl_aSet_of_ne {α : Type} (l : List (String × α))
    (acc : List (String × α)) (k : String) (h : ∀ u ∈ l, u.1 ≠ k) :
    aGet (l.foldl (fun d kv => aSet d kv.1 kv.2) acc) k = aGet acc k := by
  induction l generalizing acc with
  | nil => rfl
  | cons hd tl ih =>
    simp only [List.foldl_cons]
    rw [ih (aSet acc hd.1 hd.2) (fun u hu => h u (List.mem_cons_of_mem hd hu))]
    exact aGet_aSet_ne acc hd.2 (h hd (List.mem_cons_self hd tl))

theorem aGet_foldl_aSet_mem {α : Type} :
    ∀ (l acc : List (String × α)) {k : String} {v : α},
      (k, v) ∈ l → (l.map Prod.fst).Nodup →
      aGet (l.foldl (fun d kv => aSet d kv.1 kv.2) acc) k = some v
  | [], _, _, _, hmem, _ => by simp at hmem
  | hd :: tl, acc, k, v, hmem, hnd => by
    simp only [List.map_cons, List.nodup_cons] at hnd
    rcases List.mem_cons.mp hmem with heq | hmem'
    · subst heq
      simp only [List.foldl_cons]
      rw [aGet_foldl_aSet_of_ne tl _ k (fun u hu => by
        intro hk
        have hin : u.1 ∈ tl.map Prod.fst := List.mem_map_of_mem Prod.fst hu
        exact hnd.1 (hk ▸ hin))]
      exact aGet_aSet_self acc k v
    · simp only [List.foldl_cons]
      exact aGet_foldl_aSet_mem tl _ hmem' hnd.2

theorem aGet_mem {α : Type} {d : List (String × α)} {k : String} {v : α}
    (h : aGet d k = some v) : (k, v) ∈ d := by
  induction d with
  | nil => simp [aGet] at h
  | cons hd tl ih =>
    obtain ⟨k', v'⟩ := hd
    by_cases hk : k' = k
    · simp [aGet, hk] at h
      simp [hk, h]
    · simp only [aGet, hk, if_false] at h
      exact List.mem_cons_of_mem _ (ih h)

theorem aGet_cons_self {α : Type} (k : String) (v : α) (tl : List (String × α)) :
    aGet ((k, v) :: tl) k = some v := by simp [aGet]

theorem aGet_cons_ne {α : Type} {k k' : String} (v : α) (tl : List (String × α))
    (h : k' ≠ k) : aGet ((k', v) :: tl) k = aGet tl k := by simp [aGet, h]

theorem aGet_filter_append {α : Type} (l : List (String × α))
    (p : String × α → Bool) (k : String) (hnd : (l.map Prod.fst).Nodup) :
    aGet (l.filter p ++ l.filter (fun kv => !(p kv))) k = aGet l k := by
  induction l with
  | nil => simp
  | cons hd tl ih =>
    obtain ⟨k', v'⟩ := hd
    simp only [List.map_cons, List.nodup_cons] at hnd
    have hk'tl : ∀ q : String × α → Bool, aGet (tl.filter q) k' = none := by
      intro q
      apply aGet_keys_none
      intro kv hkv hk
      exact hnd.1 (hk ▸ List.mem_map_of_mem Prod.fst (List.mem_of_mem_filter hkv))
    have htl := ih hnd.2
    rw [aGet_append] at htl
    by_cases hp : p (k', v') = true
    · simp only [List.filter_cons, hp, Bool.not_true, Bool.false_eq_true, if_true, if_false]
      by_cases hk : k' = k
      · subst hk
        rw [List.cons_append, aGet_cons_self, aGet_cons_self]
      · rw [List.cons_append, aGet_cons_ne _ _ hk, aGet_cons_ne _ _ hk, aGet_append]
        exact htl
    · have hp' : p (k', v') = false := by simpa using hp
      simp only [List.filter_cons, hp', Bool.not_false, Bool.false_eq_true,
        if_true, if_false]
      by_cases hk : k' = k
      · subst hk
        rw [aGet_append, hk'tl p, aGet_cons_self, aGet_cons_self]
      · rw [aGet_append, aGet_cons_ne _ _ hk]
        cases hgf : aGet (tl.filter p) k with
        | none =>
          simp only [hgf] at htl ⊢
          rw [aGet_cons_ne _ _ hk]
          exact htl
        | some w =>
          simp only [hgf] at htl ⊢
          rw [aGet_cons_ne _ _ hk]
          exact htl

theorem dGet_dSet_self (d : Dict) (k : String) (v : JVal) :
    dGet (dSet d k v) k = some v := aGet_aSet_self d k v

theorem dGet_dSet_ne (d : Dict) {k k' : String} (v : JVal) (h : k' ≠ k) :
    dGet (dSet d k' v) k = dGet d k := aGet_aSet_ne d v h

theorem dSet_of_dGet_eq {d : Dict} {k : String} {v : JVal}
    (h : dGet d k = some v) : dSet d k v = d := aSet_of_aGet_eq h

theorem isSome_false_none {α : Type} {o : Option α} (h : o.isSome = false) : o = none := by
  cases o with
  | none => rfl
  | some v => simp [Option.isSome] at h

theorem dHas_none {d : Dict} {k : String} (h : dHas d k = false) : aGet d k = none :=
  isSome_false_none h

theorem dHas_not_none {d : Dict} {k : String} (h : dHas d k = true) :
    ¬ aGet d k = none := by
  intro hn
  rw [dHas, hn] at h
  simp [Option.isSome] at h

/-- The `$ref` value of a composition's base (first element of `allOf`). -/
def base_ref (d : Dict) : Option JVal :=
  match dGet d "allOf" with
  | some (.arr (x :: _)) =>
    match x with
    | .obj b => dGet b "$ref"
    | _ => none
  | _ => none

/-- The extension object of a composition (second element of `allOf`). -/
def ext_of (d : Dict) : Option Dict :=
  match dGet d "allOf" with
  | some (.arr l) =>
    match l.get? 1 with
    | some (.obj e) => some e
    | _ => none
  | _ => none

/-- The properties dictionary of a composition's extension object. -/
def ext_props_of (d : Dict) : Option Dict :=
  match ext_of d with
  | some e =>
    match dGet e "properties" with
    | some (.obj p) => some p
    | _ => none
  | none => none

/-- C10: when the `version` argument is absent or falsy, `get_openapi`
raises `ValueError` before any schema is processed — the result does not
depend on the schema document at all; when `version` is truthy, that
`ValueError` is never raised. -/
theorem C10_version_check (g : GState) (a : GArgs) (schemas schemas' : Dict) :
    (truthyStr a.version = false →
      (get_openapi g a schemas).2 = .error .valueError ∧
      get_openapi g a schemas = get_openapi g a schemas') ∧
    (truthyStr a.version = true →
      (get_openapi g a schemas).2 ≠ .error .valueError) := by
  constructor
  · intro h
    constructor
    · simp [get_openapi, h]
    · simp [get_openapi, h]
  · intro h
    simp only [get_openapi, h, not_true_eq_false, if_false]
    cases hp : process_all schemas with
    | error e => simp
    | ok triple =>
      obtain ⟨tags, tagNames, schemas2⟩ := triple
      simp

/-- C8: the format normalization of property schemas: a plain `number`
without a `format` gets `double`; a plain `integer` without a `format`
gets `int32`; an existing `format` is left unchanged; the rule recurses
into a (truthy) array `items` schema and, at the call site, into every
branch of an `anyOf` union; a `$ref` property is returned untouched. -/
theorem C8_set_format_rules :
    (∀ o : Dict, dHas o "$ref" = true →
      set_format (.obj o) = .ok (.obj o) ∧ set_format_prop (.obj o) = .ok (.obj o)) ∧
    (∀ o : Dict, dHas o "$ref" = false → dGet o "type" = some (.str "number") →
      dHas o "format" = false →
      set_format (.obj o) = .ok (.obj (dSet o "format" (.str "double")))) ∧
    (∀ o : Dict, dHas o "$ref" = false → dGet o "type" = some (.str "integer") →
      dHas o "format" = false →
      set_format (.obj o) = .ok (.obj (dSet o "format" (.str "int32")))) ∧
    (∀ (o : Dict) (t : JVal), dHas o "$ref" = false → dGet o "type" = some t →
      (t = .str "number" ∨ t = .str "integer") → dHas o "format" = true →
      set_format (.obj o) = .ok (.obj o)) ∧
    (∀ (o it : Dict), dHas o "$ref" = false → dGet o "type" = some (.str "array") →
      dGet o "items" = some (.obj it) → it ≠ [] →
      set_format (.obj o) =
        (set_format (.obj it)).map (fun v => .obj (dSet o "items" v))) ∧
    (∀ (o : Dict) (items : List JVal), dHas o "$ref" = false → dGet o "type" = none →
      dGet o "anyOf" = some (.arr items) →
      set_format_prop (.obj o) =
        (items.mapM set_format).map (fun l => .obj (dSet o "anyOf" (.arr l)))) := by
  refine ⟨?_, ?_, ?_, ?_, ?_, ?_⟩
  · intro o h
    constructor
    · rw [set_format]
      simp [h]
    · rw [set_format_prop, set_format]
      simp [h]
  · intro o h1 h2 h3
    replace h1 := dHas_none h1
    replace h3 := dHas_none h3
    rw [set_format, h2]
    simp [dHas, h1, h3]
  · intro o h1 h2 h3
    replace h1 := dHas_none h1
    replace h3 := dHas_none h3
    rw [set_format, h2]
    simp [dHas, h1, h3]
  · intro o t h1 h2 h3 h4
    replace h1 := dHas_none h1
    have h4' := dHas_not_none h4
    rw [set_format, h2]
    rcases h3 with h3 | h3 <;> subst h3 <;> simp [dHas, h1, h4']
  · intro o it h1 h2 h3 h4
    replace h1 := dHas_none h1
    rw [set_format, h2]
    have htr : JVal.truthy (.obj it) = true := by
      simp [JVal.truthy, List.isEmpty_iff, h4]
    simp only [dHas, h1, Option.isSome_none, Bool.false_eq_true, if_false, h3, htr, if_true]
    rw [if_neg (show ¬ (JVal.str "array" = JVal.str "number" ∧
          ¬ (aGet o "format").isSome = true) from by simp),
       if_neg (show ¬ (JVal.str "array" = JVal.str "integer" ∧
          ¬ (aGet o "format").isSome = true) from by simp)]
    split
    · rename_i hnone
      rw [h3] at hnone
      cases hnone
    · rename_i items0 hsome
      rw [h3] at hsome
      injection hsome with he
      subst he
      rw [if_pos htr]
      cases set_format (.obj it) <;> simp [Except.map]
  · intro o items h1 h2 h3
    replace h1 := dHas_none h1
    have h3' : aGet o "anyOf" = some (.arr items) := h3
    rw [set_format_prop, set_format, h2]
    simp only [dHas, h1, h3', h3, Option.isSome_none, Option.isSome_some,
      Bool.false_eq_true, if_false, if_true]
    cases items.mapM set_format <;> simp [Except.map]

/-- A document in which the ancestor name `Ghost` of `Child` is absent. -/
def C1_schemas : Dict :=
  [("Child", .obj
    [("properties", .obj [("x", .obj [("type", .str "string")])]),
     ("required", .arr [.str "x"])])]

/-- C1 counterexample: `set_inheritance` on a chain whose ancestor
`Ghost` is absent from the document raises nothing: it returns a
composition whose base dangles on `Ghost`, with `Ghost`'s required set
and shape signatures silently treated as empty. -/
theorem C1_counterexample :
    dHas C1_schemas "Ghost" = false ∧
    set_inheritance 3 "Child" ["Child", "Ghost"] C1_schemas =
      some (.ok [("allOf", .arr
        [.obj [("$ref", .str "#/components/schemas/Ghost")],
         .obj [("type", .str "object"),
               ("required", .arr [.str "x"]),
               ("properties", .obj [("x", .obj [("type", .str "string")])])]])]) :=
  ⟨rfl, rfl⟩

/-- C1 amended: an ancestor name absent from the document is silently
skipped by both collection loops of `set_inheritance` (required sets and
shape signatures) — no error of any kind is raised for it. -/
theorem C1_missing_ancestor_skipped (t : String) (rest : List String) (schemas : Dict)
    (h : dHas schemas t = false) :
    collect_required (t :: rest) schemas = collect_required rest schemas ∧
    ∀ acc, collect_sigs (t :: rest) schemas acc = collect_sigs rest schemas acc := by
  have hg : dGet schemas t = none := dHas_none h
  constructor
  · rw [collect_required, hg]
  · intro acc
    rw [collect_sigs, hg]

/-- C1 witness: the amended statement at the counterexample's input. -/
theorem C1_witness :
    collect_required ["Ghost"] C1_schemas = collect_required [] C1_schemas ∧
    ∀ acc, collect_sigs ["Ghost"] C1_schemas acc = collect_sigs [] C1_schemas acc :=
  C1_missing_ancestor_skipped "Ghost" [] C1_schemas rfl

/-- A document in which `Child`'s own `type` field is declared `integer`
while its ancestor `Base` (and the universal base) declare it `string`. -/
def C2_schemas : Dict :=
  [("Child", .obj [("properties", .obj [("type", .obj [("type", .str "integer")])])]),
   ("Base", .obj [("properties", .obj [("type", .obj [("type", .str "string")])])]),
   ("_OpenAPIGenBaseModel", .obj _OpenAPIGenBaseModel_schema)]

/-- Once the fallback binds `_OpenAPIGenBaseModel` twice, the same
conflict with the base's own `type: string` property recurs on every
attempt, so no attempt budget suffices. -/
theorem C2_base_retry_loops : ∀ fuel, set_inheritance fuel "Child"
    ["_OpenAPIGenBaseModel", "_OpenAPIGenBaseModel"] C2_schemas = none := by
  intro fuel
  induction fuel with
  | zero => rfl
  | succ n ih => exact ih

/-- C2: the conflict resolution of `set_inheritance` does not terminate
within `chain length + 1` attempts — or any number of attempts — when a
field of the type (here its `type` field, declared `integer`) conflicts
with the universal base schema's own `type: string` property: the
fallback retries against `_OpenAPIGenBaseModel` forever (a
`RecursionError` at runtime), instead of the claimed guaranteed
termination with a real ancestor or the universal base as base. -/
theorem C2_conflict_with_base_diverges :
    ∀ fuel, set_inheritance fuel "Child" ["Child", "Base"] C2_schemas = none := by
  intro fuel
  cases fuel with
  | zero => rfl
  | succ n => exact C2_base_retry_loops n

theorem process_names_tags (names : List String) : ∀ (acc : Dict) (tags : List JVal)
    (tagNames : List String) (acc2 : Dict),
    process_names names acc = .ok (tags, tagNames, acc2) →
    tags = names.map (fun n => .obj (create_tag n).2) ∧
    tagNames = names.map (fun n => (create_tag n).1) := by
  induction names with
  | nil =>
    intro acc tags tagNames acc2 h
    simp only [process_names, Except.ok.injEq, Prod.mk.injEq] at h
    exact ⟨h.1.symm, h.2.1.symm⟩
  | cons n rest ih =>
    intro acc tags tagNames acc2 h
    simp only [process_names] at h
    split at h
    · exact absurd h (by simp)
    · split at h
      · exact absurd h (by simp)
      · split at h
        · exact absurd h (by simp)
        · rename_i tags2 tagNames2 acc3 hrec
          simp only [Except.ok.injEq, Prod.mk.injEq] at h
          obtain ⟨he, hrec2⟩ := ih _ _ _ _ hrec
          obtain ⟨h1, h2, h3⟩ := h
          simp only [List.map_cons]
          exact ⟨by rw [← h1, he], by rw [← h2, hrec2]⟩
    · exact absurd h (by simp)

/-- The document of the C9 counterexample: two enum entries whose names
`AB` and `AB1` sort one way, while their derived tag keys `ab_model` and
`ab1_model` sort the other way (`_` > `1` in code points). -/
def C9_schemas : Dict :=
  [("AB", .obj [("enum", .arr [.str "a"])]),
   ("AB1", .obj [("enum", .arr [.str "b"])])]

/-- The arguments used by the C9 counterexample run. -/
def C9_args : GArgs :=
  { title := none, version := some "1", openapi_version := "3.0.2",
    description := none, info := none, external_docs := none }

/-- C9 counterexample: the type names in lexicographic order are
`[AB, AB1]`, so a tag-name list sorted by the underlying type name would
be `[ab_model, ab1_model]`; the pipeline instead returns
`[ab1_model, ab_model]` (it re-sorts the lowercased derived keys). -/
theorem C9_counterexample :
    ((get_openapi initGState C9_args C9_schemas).2.toOption.bind
      (fun out => dGet out "x-tagGroups")) =
      some (.arr [.obj [("name", .str "Models"),
        ("tags", .arr [.str "ab1_model", .str "ab_model"])]]) ∧
    pySort (C9_schemas.map (fun kv => kv.1)) = ["AB", "AB1"] ∧
    (["AB", "AB1"].map (fun n => (create_tag n).1)) = ["ab_model", "ab1_model"] ∧
    (["ab1_model", "ab_model"] : List String) ≠ ["ab_model", "ab1_model"] :=
  ⟨rfl, rfl, rfl, by decide⟩

/-- C9 amended: the tag list is emitted in the order of the
lexicographically sorted type names; the tag-name list is the
lexicographically sorted list of the derived tag keys
(`lowercase(name) + "_model"`) — sorted as those derived strings, which
need not coincide with the underlying type-name order. -/
theorem C9_tag_order (g : GState) (a : GArgs) (schemas : Dict) (out : Dict)
    (h : (get_openapi g a schemas).2 = .ok out) :
    ∃ tags tagNames schemas2,
      process_all schemas = .ok (tags, tagNames, schemas2) ∧
      dGet out "tags" = some (.arr tags) ∧
      dGet out "x-tagGroups" = some (.arr [.obj [("name", .str "Models"),
        ("tags", .arr ((pySort tagNames).map JVal.str))]]) ∧
      tags = (pySort (schemas.map (fun kv => kv.1))).map (fun n => .obj (create_tag n).2) ∧
      tagNames = (pySort (schemas.map (fun kv => kv.1))).map (fun n => (create_tag n).1) ∧
      (pySort (schemas.map (fun kv => kv.1))).Pairwise (fun x y => pyStrLe x y = true) ∧
      (pySort tagNames).Pairwise (fun x y => pyStrLe x y = true) ∧
      List.Perm (pySort tagNames) tagNames := by
  unfold get_openapi at h
  by_cases hv : truthyStr a.version = true
  · simp only [hv, not_true_eq_false, if_false] at h
    cases hp : process_all schemas with
    | error e =>
      rw [hp] at h
      simp at h
    | ok triple =>
      obtain ⟨tags, tagNames, schemas2⟩ := triple
      rw [hp] at h
      simp only at h
      injection h with h
      obtain ⟨ht, hn⟩ := process_names_tags _ _ _ _ _ hp
      refine ⟨tags, tagNames, schemas2, rfl, ?_, ?_, ht, hn,
        pySort_sorted _, pySort_sorted _, pySort_perm _⟩
      · rw [← h]
        simp [dGet, aGet]
      · rw [← h]
        simp [dGet, aGet]
  · simp only [hv, not_false_eq_true, if_true] at h
    simp at h

/-- The document the C9 counterexample run returns. -/
def C9_out : Dict :=
  [("openapi", .str "3.0.2"),
   ("servers", .arr []),
   ("info", .obj [("version", .str "1")]),
   ("externalDocs", .obj []),
   ("tags", .arr
     [.obj [("name", .str "ab_model"), ("x-displayName", .str "AB"),
            ("description",
             .str "<SchemaDefinition schemaRef=\"#/components/schemas/AB\" />\n")],
      .obj [("name", .str "ab1_model"), ("x-displayName", .str "AB1"),
            ("description",
             .str "<SchemaDefinition schemaRef=\"#/components/schemas/AB1\" />\n")]]),
   ("x-tagGroups", .arr [.obj [("name", .str "Models"),
      ("tags", .arr [.str "ab1_model", .str "ab_model"])]]),
   ("paths", .obj []),
   ("components", .obj [("schemas", .obj
     [("AB", .obj [("enum", .arr [.str "a"])]),
      ("AB1", .obj [("enum", .arr [.str "b"])])])])]

/-- C9 witness: the amended statement at the counterexample's input. -/
theorem C9_witness :
    ∃ tags tagNames schemas2,
      process_all C9_schemas = .ok (tags, tagNames, schemas2) ∧
      dGet C9_out "tags" = some (.arr tags) ∧
      dGet C9_out "x-tagGroups" = some (.arr [.obj [("name", .str "Models"),
        ("tags", .arr ((pySort tagNames).map JVal.str))]]) ∧
      tags = (pySort (C9_schemas.map (fun kv => kv.1))).map
        (fun n => .obj (create_tag n).2) ∧
      tagNames = (pySort (C9_schemas.map (fun kv => kv.1))).map
        (fun n => (create_tag n).1) ∧
      (pySort (C9_schemas.map (fun kv => kv.1))).Pairwise
        (fun x y => pyStrLe x y = true) ∧
      (pySort tagNames).Pairwise (fun x y => pyStrLe x y = true) ∧
      List.Perm (pySort tagNames) tagNames :=
  C9_tag_order initGState C9_args C9_schemas C9_out rfl

theorem write_title_idem (a : GArgs) (i : Dict) :
    write_title a (write_title a i) = write_title a i := by
  unfold write_title
  by_cases ht : truthyStr a.title = true
  · simp only [ht, if_true]
    exact dSet_of_dGet_eq (dGet_dSet_self i "title" _)
  · simp [ht]

theorem write_ver_desc_fixes_title (a : GArgs) (i : Dict) :
    write_title a (write_ver_desc a (write_title a i)) =
      write_ver_desc a (write_title a i) := by
  unfold write_title write_ver_desc
  cases htb : truthyStr a.title <;> cases hdb : truthyStr a.description <;>
    simp only [htb, hdb, Bool.false_eq_true, if_true, if_false]
  · apply dSet_of_dGet_eq
    rw [dGet_dSet_ne _ _ (by decide : "version" ≠ "title"), dGet_dSet_self]
  · apply dSet_of_dGet_eq
    rw [dGet_dSet_ne _ _ (by decide : "description" ≠ "title"),
        dGet_dSet_ne _ _ (by decide : "version" ≠ "title"),
        dGet_dSet_self]

theorem write_ver_desc_idem (a : GArgs) (j : Dict) :
    write_ver_desc a (write_ver_desc a j) = write_ver_desc a j := by
  unfold write_ver_desc
  cases hdb : truthyStr a.description <;>
    simp only [hdb, Bool.false_eq_true, if_true, if_false]
  · exact dSet_of_dGet_eq (dGet_dSet_self _ _ _)
  · rw [dSet_of_dGet_eq (show _ = some (JVal.str (a.version.getD "")) by
      rw [dGet_dSet_ne _ _ (by decide : "description" ≠ "version")]
      exact dGet_dSet_self _ _ _)]
    exact dSet_of_dGet_eq (dGet_dSet_self _ _ _)

theorem info_writes_idem (a : GArgs) (i : Dict) :
    write_ver_desc a (write_title a (write_ver_desc a (write_title a i))) =
      write_ver_desc a (write_title a i) := by
  rw [write_ver_desc_fixes_title, write_ver_desc_idem]

/-- The arguments of the first C3 counterexample run (a title is given). -/
def C3_args1 : GArgs :=
  { title := some "A", version := some "1", openapi_version := "3.0.2",
    description := none, info := none, external_docs := none }

/-- The arguments of the second C3 counterexample run (no title). -/
def C3_args2 : GArgs :=
  { title := none, version := some "1", openapi_version := "3.0.2",
    description := none, info := none, external_docs := none }

/-- C3 counterexample: `get_openapi` shares and mutates the module-level
base document template: a run with a title writes it into the shared
`info` dictionary, and a later run that passes no title (and no `info`)
returns that leaked title. Its output therefore differs from the same
call made on the pristine template, and the template's `info` is no
longer the empty sentinel after the first run. -/
theorem C3_counterexample :
    ((get_openapi (get_openapi initGState C3_args1 []).1 C3_args2 []).2.toOption.bind
      (fun out => dGet out "info")) =
      some (.obj [("title", .str "A"), ("version", .str "1")]) ∧
    ((get_openapi initGState C3_args2 []).2.toOption.bind
      (fun out => dGet out "info")) = some (.obj [("version", .str "1")]) ∧
    some (JVal.obj [("title", .str "A"), ("version", .str "1")]) ≠
      some (JVal.obj [("version", .str "1")]) ∧
    (get_openapi initGState C3_args1 []).1.info =
      [("title", .str "A"), ("version", .str "1")] ∧
    initGState.info = [] :=
  ⟨rfl, rfl, by decide, rfl, rfl⟩

/-- C3 amended: with equal inputs, repeating an invocation returns the
same pair (output and template state) — the writes into the shared
template are idempotent for fixed arguments — even though the template
is genuinely shared mutable process-wide state (see the counterexample,
where runs with different arguments interfere). -/
theorem C3_repeat_run (g : GState) (a : GArgs) (schemas : Dict) :
    get_openapi (get_openapi g a schemas).1 a schemas = get_openapi g a schemas := by
  unfold get_openapi
  cases hi : truthyDict a.info <;> cases hv : truthyStr a.version <;>
    simp only [hi, hv, Bool.false_eq_true, not_false_eq_true, not_true_eq_false,
      if_true, if_false]
  all_goals
    first
    | rfl
    | simp [write_title_idem]
    | (cases hp : process_all schemas with
       | error e => simp [hp, write_title_idem, info_writes_idem]
       | ok triple =>
         obtain ⟨tags, tagNames, schemas2⟩ := triple
         simp [hp, write_title_idem, info_writes_idem])

theorem aGet_none_not_mem {α : Type} {d : List (String × α)} {k : String}
    (h : aGet d k = none) : ∀ kv ∈ d, kv.1 ≠ k := by
  induction d with
  | nil => simp
  | cons hd tl ih =>
    obtain ⟨k', v'⟩ := hd
    by_cases hk : k' = k
    · rw [show aGet ((k', v') :: tl) k = some v' by simp [aGet, hk]] at h
      cases h
    · intro kv hkv
      rcases List.mem_cons.mp hkv with rfl | hkv
      · exact hk
      · exact ih (by simpa [aGet, hk] using h) kv hkv

theorem keys_aSet_present {α : Type} {d : List (String × α)} {k : String} {w : α}
    (h : aGet d k = some w) (v : α) :
    (aSet d k v).map Prod.fst = d.map Prod.fst := by
  induction d with
  | nil => simp [aGet] at h
  | cons hd tl ih =>
    obtain ⟨k', v'⟩ := hd
    by_cases hk : k' = k
    · simp [aSet, hk]
    · simp only [aGet, hk, if_false] at h
      simp [aSet, hk, ih h]

theorem keys_aSet_absent {α : Type} {d : List (String × α)} {k : String}
    (h : aGet d k = none) (v : α) :
    (aSet d k v).map Prod.fst = d.map Prod.fst ++ [k] := by
  induction d with
  | nil => simp [aSet]
  | cons hd tl ih =>
    obtain ⟨k', v'⟩ := hd
    by_cases hk : k' = k
    · rw [show aGet ((k', v') :: tl) k = some v' by simp [aGet, hk]] at h
      cases h
    · simp only [aGet, hk, if_false] at h
      simp [aSet, hk, ih h]

theorem nodup_keys_aSet {α : Type} {d : List (String × α)} (k : String) (v : α)
    (hnd : (d.map Prod.fst).Nodup) : ((aSet d k v).map Prod.fst).Nodup := by
  cases hg : aGet d k with
  | some w => rw [keys_aSet_present hg]; exact hnd
  | none =>
    rw [keys_aSet_absent hg]
    rw [List.nodup_append]
    refine ⟨hnd, List.nodup_singleton k, ?_⟩
    intro x hx hx1
    rcases List.mem_singleton.mp hx1 with rfl
    obtain ⟨kv, hkv, hfst⟩ := List.mem_map.mp hx
    exact aGet_none_not_mem hg kv hkv hfst

theorem dHas_dSet_ne (s : Dict) {k k' : String} (v : JVal) (h : k' ≠ k) :
    dHas (dSet s k' v) k = dHas s k := by
  unfold dHas dSet
  rw [aGet_aSet_ne s v h]

/-- `l.set 1` and `l.get? 1` interact as expected when index 1 exists. -/
theorem get1_set1 (l : List JVal) (x y : JVal) (h : l.get? 1 = some y) :
    (l.set 1 x).get? 1 = some x := by
  match l with
  | [] => simp at h
  | [a] => simp at h
  | a :: b :: rest => simp [List.set]

theorem dGet_extras_fold (extras : Dict) (outer : Dict) (k : String)
    (h : ∀ u ∈ extras, u.1 ≠ k) :
    dGet (extras.foldl (fun d kv => dSet d kv.1 kv.2) outer) k = dGet outer k :=
  aGet_foldl_aSet_of_ne extras outer k h

theorem aGet_dSet_ne (d : Dict) {k k' : String} (v : JVal) (h : k' ≠ k) :
    aGet (dSet d k' v) k = aGet d k := aGet_aSet_ne d v h

theorem attempt_ok_shape (name : String) (tc : List String) (topClass : String)
    (schemas od d : Dict)
    (hobj : dGet schemas name = some (.obj od))
    (henum : dHas od "enum" = false)
    (hallof : dHas od "allOf" = false)
    (hatt : set_inheritance_attempt name tc topClass schemas = .ok d) :
    ∃ tcr tcp cur props extProps,
      collect_required tc schemas = .ok tcr ∧
      collect_sigs tc schemas [] = .ok tcp ∧
      getRequiredList od = .ok cur ∧
      getPropsDict od = .ok props ∧
      extend_props props tcp [] = .done extProps ∧
      base_ref d = some (.str ("#/components/schemas/" ++ topClass)) ∧
      (∃ e, ext_of d = some e ∧
        dGet e "required" = (if (required_delta cur tcr).isEmpty then none
          else some (.arr (required_delta cur tcr)))) ∧
      ext_props_of d = some (match dGet props "type" with
        | some tv => dSet extProps "type" tv
        | none => extProps) := by
  rw [set_inheritance_attempt] at hatt
  simp only [hobj, henum, Bool.false_eq_true, if_false] at hatt
  split at hatt
  · exact absurd hatt (by simp)
  split at hatt
  · exact absurd hatt (by simp)
  split at hatt
  · exact absurd hatt (by simp)
  split at hatt
  · exact absurd hatt (by simp)
  split at hatt
  · exact absurd hatt (by simp)
  · exact absurd hatt (by simp)
  injection hatt with hd
  subst hd
  rename_i s1 tcr hcr s2 tcp hcp s3 cur hcur s4 props1 hps s5 extp hdone
  have hne : ∀ u ∈ od.filter (fun kv => decide (¬ kv.1 ∈ copied_keys)),
      u.1 ≠ "allOf" :=
    fun u hu => aGet_none_not_mem (dHas_none hallof) u (List.mem_of_mem_filter hu)
  refine ⟨tcr, tcp, cur, props1, extp, hcr, hcp, hcur, hps, hdone, ?_, ?_, ?_⟩
  · unfold base_ref
    rw [dGet_extras_fold _ _ _ hne]
    simp [dGet, aGet]
  · unfold ext_of
    rw [dGet_extras_fold _ _ _ hne]
    by_cases hre : (required_delta cur tcr).isEmpty = true <;>
      simp only [hre, if_true, if_false] <;>
      cases haP : aGet od "additionalProperties" <;>
        simp [dGet, aGet, dSet, aSet, haP]
  · unfold ext_props_of ext_of
    rw [dGet_extras_fold _ _ _ hne]
    by_cases hre : (required_delta cur tcr).isEmpty = true <;>
      simp only [hre, if_true, if_false] <;>
      cases haP : aGet od "additionalProperties" <;>
        simp [dGet, aGet, dSet, aSet, haP]

theorem extend_props_skips : ∀ (props : Dict) (tcp : List (String × Sig)) (acc out : Dict),
    extend_props props tcp acc = .done out →
    ∀ p, (aGet tcp p).isSome = true → dHas acc p = false → dHas out p = false
  | [], _, acc, out, h, p, _, hacc => by
      simp only [extend_props, ExtendRes.done.injEq] at h
      exact h ▸ hacc
  | (q, v) :: rest, tcp, acc, out, h, p, hsig, hacc => by
      simp only [extend_props] at h
      split at h
      · rename_i heq
        refine extend_props_skips rest tcp _ out h p hsig ?_
        have hqp : q ≠ p := by
          intro he
          rw [he] at heq
          rw [heq] at hsig
          simp [Option.isSome] at hsig
        rw [dHas_dSet_ne acc v hqp]
        exact hacc
      · rename_i sig heq
        split at h
        · split at h
          · cases h
          · exact extend_props_skips rest tcp acc out h p hsig hacc
        · cases h

/-- The C4 counterexample document: `Child` and its ancestor `Base` both
declare `type` with the same shape (`string`). -/
def C4_schemas : Dict :=
  [("Child", .obj [("properties", .obj
      [("type", .obj [("type", .str "string")]),
       ("extra", .obj [("type", .str "integer")])])]),
   ("Base", .obj [("properties", .obj [("type", .obj [("type", .str "string")])])])]

/-- The compiled composition for `Child` in the C4 counterexample. -/
def C4_result : Dict :=
  [("allOf", .arr
    [.obj [("$ref", .str "#/components/schemas/Base")],
     .obj [("type", .str "object"),
           ("properties", .obj
             [("extra", .obj [("type", .str "integer")]),
              ("type", .obj [("type", .str "string")])])]])]

/-- C4 counterexample: `Base` declares `type` with exactly the shape
signature `Child` declares it with (no conflict), yet the compiled
extension's properties contain `type` — the unconditional `type` copy at
the end of `set_inheritance` overrides the elision rule. -/
theorem C4_counterexample :
    set_inheritance 2 "Child" ["Child", "Base"] C4_schemas = some (.ok C4_result) ∧
    ext_props_of C4_result = some
      [("extra", .obj [("type", .str "integer")]),
       ("type", .obj [("type", .str "string")])] ∧
    dHas [("extra", JVal.obj [("type", .str "integer")]),
          ("type", .obj [("type", .str "string")])] "type" = true ∧
    collect_sigs ["Base"] C4_schemas [] = .ok [("type", Sig.val (.str "string"))] ∧
    sigOfProp [("type", .str "string")] = Sig.val (.str "string") ∧
    ("type", JVal.obj [("type", .str "string")]) ∈
      ([("type", .obj [("type", .str "string")]),
        ("extra", .obj [("type", .str "integer")])] : Dict) :=
  ⟨rfl, rfl, rfl, rfl, rfl, by decide⟩

/-- C4 amended: for a non-enum type with a non-empty ancestor chain
whose decomposition succeeds with no field conflict, the compiled
extension's properties contain no field name, other than `type`, that
any ancestor in the bound chain also declares (in particular none
declared with the same shape signature); the type's own `type` property
is the sole exception — it is always copied. -/
theorem C4_extension_excludes_inherited (fuel : Nat) (name self topClass : String)
    (ancs : List String) (schemas od d : Dict)
    (hfuel : 1 ≤ fuel)
    (hobj : dGet schemas name = some (.obj od))
    (henum : dHas od "enum" = false)
    (hallof : dHas od "allOf" = false)
    (hatt : set_inheritance_attempt name (topClass :: ancs) topClass schemas = .ok d) :
    set_inheritance fuel name (self :: topClass :: ancs) schemas = some (.ok d) ∧
    ∀ tcp props, collect_sigs (topClass :: ancs) schemas [] = .ok tcp →
      getPropsDict od = .ok props →
      ∀ p v, (p, v) ∈ props → p ≠ "type" → (aGet tcp p).isSome = true →
        ∃ ep, ext_props_of d = some ep ∧ dHas ep p = false := by
  obtain ⟨tcr, tcp0, cur, props0, extp, hcr, hcp, hcur, hps, hdone, hbase, hre, hproe⟩ :=
    attempt_ok_shape name (topClass :: ancs) topClass schemas od d hobj henum hallof hatt
  constructor
  · cases fuel with
    | zero => omega
    | succ m =>
      rw [set_inheritance]
      simp only [List.tail_cons, hatt]
  · intro tcp props hcp' hps'
    rw [hcp'] at hcp
    injection hcp with hcpe
    rw [hps'] at hps
    injection hps with hpse
    subst hcpe
    subst hpse
    intro p v _ hptype hsig
    refine ⟨_, hproe, ?_⟩
    have hskip := extend_props_skips props tcp [] extp hdone p hsig (by simp [dHas, aGet])
    cases hty : dGet props "type" with
    | some tv =>
      rw [show dHas (dSet extp "type" tv) p = dHas extp p from
        dHas_dSet_ne extp tv (fun he => hptype he.symm)]
      exact hskip
    | none =>
      exact hskip

/-- A conflict-free C4 witness document: `shared` is declared by both
`Child` and `Base` with the same shape; `extra` is new. -/
def C4_wit_schemas : Dict :=
  [("Child", .obj [("properties", .obj
      [("shared", .obj [("type", .str "string")]),
       ("extra", .obj [("type", .str "integer")])])]),
   ("Base", .obj [("properties", .obj [("shared", .obj [("type", .str "string")])])])]

/-- The `Child` entry of the C4 witness document. -/
def C4_wit_od : Dict :=
  [("properties", .obj
    [("shared", .obj [("type", .str "string")]),
     ("extra", .obj [("type", .str "integer")])])]

/-- The compiled composition for `Child` in the C4 witness document:
the inherited `shared` is elided, only `extra` is kept. -/
def C4_wit_result : Dict :=
  [("allOf", .arr
    [.obj [("$ref", .str "#/components/schemas/Base")],
     .obj [("type", .str "object"),
           ("properties", .obj [("extra", .obj [("type", .str "integer")])])]])]

/-- C4 witness: the amended statement at a concrete conflict-free input. -/
theorem C4_witness :
    set_inheritance 2 "Child" ["Child", "Base"] C4_wit_schemas =
      some (.ok C4_wit_result) ∧
    ∀ tcp props, collect_sigs ["Base"] C4_wit_schemas [] = .ok tcp →
      getPropsDict C4_wit_od = .ok props →
      ∀ p v, (p, v) ∈ props → p ≠ "type" → (aGet tcp p).isSome = true →
        ∃ ep, ext_props_of C4_wit_result = some ep ∧ dHas ep p = false :=
  C4_extension_excludes_inherited 2 "Child" "Child" "Base" [] C4_wit_schemas
    C4_wit_od C4_wit_result (by decide) rfl rfl rfl rfl

theorem required_delta_spec (cur tcr : List JVal) :
    (tcr = [] → required_delta cur tcr = cur) ∧
    (tcr ≠ [] → required_delta cur tcr = cur.filter (fun r => ¬ r ∈ tcr)) ∧
    (∀ r ∈ required_delta cur tcr, ¬ r ∈ tcr) := by
  refine ⟨?_, ?_, ?_⟩
  · intro h
    subst h
    unfold required_delta
    cases cur with
    | nil => simp
    | cons a l => simp
  · intro h
    unfold required_delta
    have h1 : tcr.isEmpty = false := by simpa [List.isEmpty_iff] using h
    cases cur with
    | nil => simp [h1]
    | cons a l => simp [h1]
  · intro r hr
    unfold required_delta at hr
    split at hr
    · rename_i hc
      have he : tcr = [] := List.isEmpty_iff.mp hc.1
      subst he
      simp
    · split at hr
      · exact of_decide_eq_true (List.mem_filter.mp hr).2
      · simp at hr

theorem suffix_singleton {α : Type} {tc : List α} {a : α}
    (h : tc <:+ [a]) (hne : tc ≠ []) : tc = [a] := by
  obtain ⟨t, ht⟩ := h
  cases t with
  | nil => simpa using ht
  | cons b t' =>
    simp only [List.cons_append, List.cons.injEq] at ht
    have := List.append_eq_nil.mp ht.2
    exact absurd this.2 hne

/-- C5: the required list of a successful composition's extension is the
required-field delta of the type's own required list against the required
sets collected over the chain the result was finally bound to — a suffix
of the trimmed ancestor chain, or the universal base after fallback — and
an empty delta is omitted rather than serialized as an empty array. When
that bound chain declares no required fields the delta is the type's own
list verbatim; otherwise it is the filtered difference, and it never
contains a name required by the bound chain. (The delta is NOT taken
against every ancestor of the original chain: a conflict retry shrinks the
chain before the delta is computed, see `C5_counterexample`.) -/
theorem C5_required_delta_bound_chain :
    ∀ (fuel : Nat) (c0 : List String) (name : String) (schemas od d : Dict),
      set_inheritance fuel name c0 schemas = some (.ok d) →
      dGet schemas name = some (.obj od) →
      dHas od "enum" = false →
      dHas od "allOf" = false →
      ∃ tc cur tcr,
        ((tc ≠ [] ∧ tc <:+ c0.tail) ∨ tc = ["_OpenAPIGenBaseModel"]) ∧
        getRequiredList od = .ok cur ∧
        collect_required tc schemas = .ok tcr ∧
        (∃ e, ext_of d = some e ∧ dGet e "required" =
          (if (required_delta cur tcr).isEmpty then none
           else some (.arr (required_delta cur tcr)))) ∧
        (tcr = [] → required_delta cur tcr = cur) ∧
        (tcr ≠ [] → required_delta cur tcr = cur.filter (fun r => ¬ r ∈ tcr)) ∧
        (∀ r ∈ required_delta cur tcr, ¬ r ∈ tcr) := by
  intro fuel
  induction fuel with
  | zero =>
    intro c0 name schemas od d h
    cases h
  | succ m ih =>
    intro c0 name schemas od d h hobj henum hallof
    rw [set_inheritance] at h
    cases hc : c0.tail with
    | nil =>
      simp only [hc] at h
      simp at h
    | cons topClass rest =>
      simp only [hc] at h
      cases hatt : set_inheritance_attempt name (topClass :: rest) topClass schemas with
      | ok d0 =>
        simp only [hatt, Option.some.injEq, Except.ok.injEq] at h
        subst h
        obtain ⟨tcr, tcp, cur, props, extp, hcr, _, hcur, _, _, _, hre, _⟩ :=
          attempt_ok_shape name (topClass :: rest) topClass schemas od d0
            hobj henum hallof hatt
        obtain ⟨hd1, hd2, hd3⟩ := required_delta_spec cur tcr
        refine ⟨topClass :: rest, cur, tcr,
          Or.inl ⟨by simp, ?_⟩, hcur, hcr, hre, hd1, hd2, hd3⟩
        exact List.suffix_refl _
      | err e =>
        simp only [hatt] at h
        simp at h
      | conflict =>
        simp only [hatt] at h
        cases rest with
        | cons b bs =>
          obtain ⟨tc, cur, tcr, hloc, hrest⟩ :=
            ih (topClass :: b :: bs) name schemas od d h hobj henum hallof
          refine ⟨tc, cur, tcr, ?_, hrest⟩
          rcases hloc with ⟨hne, hsuf⟩ | hub
          · left
            exact ⟨hne, hsuf.trans (List.suffix_cons topClass (b :: bs))⟩
          · right
            exact hub
        | nil =>
          obtain ⟨tc, cur, tcr, hloc, hrest⟩ :=
            ih ["_OpenAPIGenBaseModel", "_OpenAPIGenBaseModel"] name schemas od d
              h hobj henum hallof
          refine ⟨tc, cur, tcr, Or.inr ?_, hrest⟩
          rcases hloc with ⟨hne, hsuf⟩ | hub
          · exact suffix_singleton (by simpa using hsuf) hne
          · exact hub

/-- C5 counterexample document: `Child` declares `y : integer` and
`x : string`, requiring `x`; ancestor `A1` declares `y : string` (a shape
conflict with `Child.y`) and also requires `x`; ancestor `A2` declares
nothing. -/
def C5_schemas : Dict :=
  [("Child", .obj [("properties", .obj
      [("y", .obj [("type", .str "integer")]), ("x", .obj [("type", .str "string")])]),
    ("required", .arr [.str "x"])]),
   ("A1", .obj [("properties", .obj [("y", .obj [("type", .str "string")])]),
    ("required", .arr [.str "x"])]),
   ("A2", .obj [("properties", .obj [])])]

/-- The `Child` entry of `C5_schemas`. -/
def C5_od : Dict :=
  [("properties", .obj
      [("y", .obj [("type", .str "integer")]), ("x", .obj [("type", .str "string")])]),
   ("required", .arr [.str "x"])]

/-- What `set_inheritance` produces for `Child` on `C5_schemas`: the
conflict on `y` trims the chain to `A2`, and the required delta is then
taken against `A2` alone. -/
def C5_result : Dict :=
  [("allOf", .arr
     [.obj [("$ref", .str "#/components/schemas/A2")],
      .obj [("type", .str "object"),
            ("required", .arr [.str "x"]),
            ("properties", .obj
              [("y", .obj [("type", .str "integer")]),
               ("x", .obj [("type", .str "string")])])]])]

/-- C5 counterexample: compiling `Child` over chain `[Child, A1, A2]`
succeeds with an extension whose required list is `["x"]`, yet the
ancestors `A1, A2` of the original chain collectively require `"x"`: the
extension's required list DOES contain a name present in an ancestor's
required set, because after the conflict retry the delta was computed
against `A2` alone, not against every ancestor. -/
theorem C5_counterexample :
    set_inheritance 3 "Child" ["Child", "A1", "A2"] C5_schemas
      = some (.ok C5_result) ∧
    (∃ e, ext_of C5_result = some e ∧
      dGet e "required" = some (.arr [.str "x"])) ∧
    collect_required ["A1", "A2"] C5_schemas = .ok [.str "x"] ∧
    JVal.str "x" ∈ [JVal.str "x"] :=
  ⟨rfl, ⟨_, rfl, rfl⟩, rfl, by simp⟩

/-- Witness for C5: the bound-chain theorem applied to the `C5_schemas`
scenario at fuel 3. -/
theorem C5_witness :
    dGet C5_schemas "Child" = some (.obj C5_od) ∧
    (∃ tc cur tcr,
      ((tc ≠ [] ∧ tc <:+ (["Child", "A1", "A2"] : List String).tail) ∨
        tc = ["_OpenAPIGenBaseModel"]) ∧
      getRequiredList C5_od = .ok cur ∧
      collect_required tc C5_schemas = .ok tcr ∧
      (∃ e, ext_of C5_result = some e ∧ dGet e "required" =
        (if (required_delta cur tcr).isEmpty then none
         else some (.arr (required_delta cur tcr)))) ∧
      (tcr = [] → required_delta cur tcr = cur) ∧
      (tcr ≠ [] → required_delta cur tcr = cur.filter (fun r => ¬ r ∈ tcr)) ∧
      (∀ r ∈ required_delta cur tcr, ¬ r ∈ tcr)) :=
  ⟨rfl, C5_required_delta_bound_chain 3 ["Child", "A1", "A2"] "Child"
    C5_schemas C5_od C5_result rfl rfl rfl rfl⟩

theorem dGet_cons_self (k : String) (v : JVal) (tl : Dict) :
    dGet ((k, v) :: tl) k = some v := aGet_cons_self k v tl

theorem dGet_cons_ne {k k' : String} (v : JVal) (tl : Dict) (h : k' ≠ k) :
    dGet ((k', v) :: tl) k = aGet tl k := aGet_cons_ne v tl h

/-- The per-key step of `inherit_fom_basemodel`'s copying loop, as a
named function (definitionally the inline lambda of the definition). -/
def ifb_step (s : Dict × Dict) (kv : String × JVal) : Dict × Dict :=
  if kv.1 = "title" ∨ kv.1 = "description" then (dSet s.1 kv.1 kv.2, s.2)
  else (s.1, dSet s.2 kv.1 kv.2)

theorem ifb_eq (m : Dict) :
    inherit_fom_basemodel m =
      ("allOf", .arr
        [.obj [("$ref", .str "#/components/schemas/_OpenAPIGenBaseModel")],
         .obj (m.foldl ifb_step
           ([], [("type", .str "object"), ("properties", .obj [])])).2]) ::
      (m.foldl ifb_step ([], [("type", .str "object"), ("properties", .obj [])])).1 :=
  rfl

theorem ifb_fold_pres :
    ∀ (l : List (String × JVal)) (s : Dict × Dict) (k : String),
      (∀ u ∈ l, u.1 ≠ k) →
      aGet (l.foldl ifb_step s).1 k = aGet s.1 k ∧
      aGet (l.foldl ifb_step s).2 k = aGet s.2 k
  | [], _, _, _ => ⟨rfl, rfl⟩
  | (k0, v0) :: tl, s, k, h => by
    have hk0 : k0 ≠ k := h (k0, v0) (List.mem_cons_self _ _)
    have htl : ∀ u ∈ tl, u.1 ≠ k := fun u hu => h u (List.mem_cons_of_mem _ hu)
    have ih := ifb_fold_pres tl (ifb_step s (k0, v0)) k htl
    simp only [List.foldl_cons]
    refine ⟨?_, ?_⟩
    · rw [ih.1]
      simp only [ifb_step]
      split
      · exact aGet_aSet_ne s.1 v0 hk0
      · rfl
    · rw [ih.2]
      simp only [ifb_step]
      split
      · rfl
      · exact aGet_aSet_ne s.2 v0 hk0

theorem ifb_fold_mem :
    ∀ (l : List (String × JVal)) (s : Dict × Dict) (k : String) (v : JVal),
      (k, v) ∈ l → (l.map Prod.fst).Nodup →
      (if k = "title" ∨ k = "description"
       then aGet (l.foldl ifb_step s).1 k = some v
       else aGet (l.foldl ifb_step s).2 k = some v)
  | [], _, _, _, hmem, _ => by simp at hmem
  | (k0, v0) :: tl, s, k, v, hmem, hnd => by
    simp only [List.map_cons, List.nodup_cons] at hnd
    rcases List.mem_cons.mp hmem with heq | hmem2
    · injection heq with h1 h2
      subst h1
      subst h2
      have hni : ∀ u ∈ tl, u.1 ≠ k := by
        intro u hu hku
        exact hnd.1 (hku ▸ List.mem_map_of_mem Prod.fst hu)
      have hp := ifb_fold_pres tl (ifb_step s (k, v)) k hni
      simp only [List.foldl_cons]
      by_cases hk : k = "title" ∨ k = "description"
      · rw [if_pos hk, hp.1]
        simp only [ifb_step]
        rw [if_pos hk]
        exact aGet_aSet_self s.1 k v
      · rw [if_neg hk, hp.2]
        simp only [ifb_step]
        rw [if_neg hk]
        exact aGet_aSet_self s.2 k v
    · simp only [List.foldl_cons]
      exact ifb_fold_mem tl (ifb_step s (k0, v0)) k v hmem2 hnd.2

theorem ifb_spec (m : Dict) (hnd : (m.map Prod.fst).Nodup) :
    ∃ inner,
      dGet (inherit_fom_basemodel m) "allOf" =
        some (.arr [.obj [("$ref", .str "#/components/schemas/_OpenAPIGenBaseModel")],
                    .obj inner]) ∧
      ∀ k v, (k, v) ∈ m →
        (if k = "title" ∨ k = "description"
         then dGet (inherit_fom_basemodel m) k = some v
         else dGet inner k = some v) := by
  refine ⟨(m.foldl ifb_step ([], [("type", .str "object"), ("properties", .obj [])])).2,
    ?_, ?_⟩
  · rw [ifb_eq]
    exact dGet_cons_self _ _ _
  · intro k v hmem
    have h := ifb_fold_mem m ([], [("type", .str "object"), ("properties", .obj [])])
      k v hmem hnd
    by_cases hk : k = "title" ∨ k = "description"
    · rw [if_pos hk] at h ⊢
      rw [ifb_eq]
      have hka : "allOf" ≠ k := by
        rcases hk with h1 | h1 <;> subst h1 <;> decide
      rw [dGet_cons_ne _ _ hka]
      exact h
    · rw [if_neg hk] at h ⊢
      exact h

theorem gsi_updates_spec (ancOf : List (String × List String)) (schemas : Dict)
    (fuel : Nat) :
    ∀ (l updates : List (String × JVal)),
      gsi_updates ancOf schemas fuel l = some (.ok updates) →
      (updates.map Prod.fst).Sublist (l.map Prod.fst) ∧
      ∀ name m, (name, .obj m) ∈ l → aGet ancOf name = some [] →
        name ≠ "_OpenAPIGenBaseModel" →
        (name, .obj (inherit_fom_basemodel m)) ∈ updates := by
  intro l
  induction l with
  | nil =>
    intro updates h
    simp only [gsi_updates, Option.some.injEq, Except.ok.injEq] at h
    subst h
    refine ⟨List.Sublist.refl _, ?_⟩
    intro name m hmem
    simp at hmem
  | cons hd rest ih =>
    obtain ⟨n0, v0⟩ := hd
    intro updates h
    simp only [gsi_updates] at h
    cases hg : aGet ancOf n0 with
    | none =>
      simp only [hg] at h
      cases hrest : gsi_updates ancOf schemas fuel rest with
      | none => simp [hrest] at h
      | some r =>
        cases r with
        | error e => simp [hrest] at h
        | ok l2 =>
          simp only [hrest, Option.some.injEq, Except.ok.injEq] at h
          subst h
          obtain ⟨hsub, hmem⟩ := ih l2 hrest
          refine ⟨by simpa using hsub.cons n0, ?_⟩
          intro name m hmem2 hanc hub
          rcases List.mem_cons.mp hmem2 with heq | hm2
          · injection heq with h1 h2
            subst h1
            rw [hg] at hanc
            simp at hanc
          · exact hmem name m hm2 hanc hub
    | some tcs =>
      simp only [hg] at h
      cases hte : tcs.isEmpty with
      | true =>
        rw [if_pos hte] at h
        by_cases hn0 : n0 = "_OpenAPIGenBaseModel"
        · rw [if_pos hn0] at h
          cases hrest : gsi_updates ancOf schemas fuel rest with
          | none => simp [hrest] at h
          | some r =>
            cases r with
            | error e => simp [hrest] at h
            | ok l2 =>
              simp only [hrest, Option.some.injEq, Except.ok.injEq] at h
              subst h
              obtain ⟨hsub, hmem⟩ := ih l2 hrest
              refine ⟨by simpa using hsub.cons n0, ?_⟩
              intro name m hmem2 hanc hub
              rcases List.mem_cons.mp hmem2 with heq | hm2
              · injection heq with h1 h2
                subst h1
                exact absurd hn0 hub
              · exact hmem name m hm2 hanc hub
        · rw [if_neg hn0] at h
          cases v0 with
          | obj m0 =>
            cases hrest : gsi_updates ancOf schemas fuel rest with
            | none => simp [hrest] at h
            | some r =>
              cases r with
              | error e => simp [hrest] at h
              | ok l2 =>
                simp only [hrest, Option.some.injEq, Except.ok.injEq] at h
                subst h
                obtain ⟨hsub, hmem⟩ := ih l2 hrest
                refine ⟨by simpa using hsub.cons₂ n0, ?_⟩
                intro name m hmem2 hanc hub
                rcases List.mem_cons.mp hmem2 with heq | hm2
                · injection heq with h1 h2
                  subst h1
                  injection h2 with h3
                  subst h3
                  exact List.mem_cons_self _ _
                · exact List.mem_cons_of_mem _ (hmem name m hm2 hanc hub)
          | str s => simp at h
          | int i => simp at h
          | bool b => simp at h
          | null => simp at h
          | arr a => simp at h
      | false =>
        have hte2 : ¬ (tcs.isEmpty = true) := by
          rw [hte]
          exact Bool.false_ne_true
        rw [if_neg hte2] at h
        cases hsi : set_inheritance fuel n0 tcs schemas with
        | none => simp [hsi] at h
        | some r =>
          cases r with
          | error e => simp [hsi] at h
          | ok d =>
            simp only [hsi] at h
            cases hrest : gsi_updates ancOf schemas fuel rest with
            | none => simp [hrest] at h
            | some r2 =>
              cases r2 with
              | error e => simp [hrest] at h
              | ok l2 =>
                simp only [hrest, Option.some.injEq, Except.ok.injEq] at h
                subst h
                obtain ⟨hsub, hmem⟩ := ih l2 hrest
                refine ⟨by simpa using hsub.cons₂ n0, ?_⟩
                intro name m hmem2 hanc hub
                rcases List.mem_cons.mp hmem2 with heq | hm2
                · injection heq with h1 h2
                  subst h1
                  rw [hg] at hanc
                  injection hanc with h4
                  subst h4
                  simp at hte
                · exact List.mem_cons_of_mem _ (hmem name m hm2 hanc hub)

/-- C6: a non-enum mapped entry whose ancestor chain is empty (and which
is not the universal base itself) comes out of `get_schemas_inheritance`
as `inherit_fom_basemodel` of its schema: a composition whose single base
reference is the universal base `_OpenAPIGenBaseModel`, with every key of
the original schema preserved — `title` and `description` on the outer
object, every other key copied verbatim into the extension object, so
nothing is elided. -/
theorem C6_root_composition (ancOf : List (String × List String)) (schemas : Dict)
    (fuel : Nat) (name : String) (m doc : Dict)
    (hanc : aGet ancOf name = some [])
    (hub : name ≠ "_OpenAPIGenBaseModel")
    (hm : dGet schemas name = some (.obj m))
    (hnd : (schemas.map Prod.fst).Nodup)
    (hmnd : (m.map Prod.fst).Nodup)
    (hrun : get_schemas_inheritance ancOf schemas fuel = some (.ok doc)) :
    dGet doc name = some (.obj (inherit_fom_basemodel m)) ∧
    (∃ inner,
      dGet (inherit_fom_basemodel m) "allOf" =
        some (.arr [.obj [("$ref", .str "#/components/schemas/_OpenAPIGenBaseModel")],
                    .obj inner]) ∧
      ∀ k v, (k, v) ∈ m →
        (if k = "title" ∨ k = "description"
         then dGet (inherit_fom_basemodel m) k = some v
         else dGet inner k = some v)) := by
  constructor
  · unfold get_schemas_inheritance at hrun
    cases hg : gsi_updates ancOf schemas fuel schemas with
    | none => simp [hg] at hrun
    | some r =>
      cases r with
      | error e => simp [hg] at hrun
      | ok updates =>
        simp only [hg, Option.some.injEq, Except.ok.injEq] at hrun
        subst hrun
        obtain ⟨hsub, hmem⟩ := gsi_updates_spec ancOf schemas fuel schemas updates hg
        have hin : (name, .obj (inherit_fom_basemodel m)) ∈ updates :=
          hmem name m (aGet_mem hm) hanc hub
        have hund : (updates.map Prod.fst).Nodup := hsub.nodup hnd
        exact aGet_foldl_aSet_mem updates schemas hin hund
  · exact ifb_spec m hmnd

/-- A root type for the C6 witness: `Root` carries a title, a type, an
empty property table and one required name, and has no ancestors. -/
def C6_wit_m : Dict :=
  [("title", .str "Root"), ("type", .str "object"),
   ("properties", .obj []), ("required", .arr [.str "a"])]

/-- The C6 witness document: `Root` plus the injected universal base. -/
def C6_wit_schemas : Dict :=
  [("Root", .obj C6_wit_m),
   ("_OpenAPIGenBaseModel", .obj _OpenAPIGenBaseModel_schema)]

/-- The ancestor chains of the C6 witness document: both entries are
roots. -/
def C6_wit_anc : List (String × List String) :=
  [("Root", []), ("_OpenAPIGenBaseModel", [])]

/-- What `get_schemas_inheritance` produces on the C6 witness document. -/
def C6_wit_doc : Dict :=
  [("Root", .obj
     [("allOf", .arr
        [.obj [("$ref", .str "#/components/schemas/_OpenAPIGenBaseModel")],
         .obj [("type", .str "object"), ("properties", .obj []),
               ("required", .arr [.str "a"])]]),
      ("title", .str "Root")]),
   ("_OpenAPIGenBaseModel", .obj _OpenAPIGenBaseModel_schema)]

/-- Witness for C6: the root-composition theorem applied to the `Root`
entry of `C6_wit_schemas`. -/
theorem C6_witness :
    aGet C6_wit_anc "Root" = some [] ∧
    (dGet C6_wit_doc "Root" = some (.obj (inherit_fom_basemodel C6_wit_m)) ∧
     (∃ inner,
       dGet (inherit_fom_basemodel C6_wit_m) "allOf" =
         some (.arr [.obj [("$ref", .str "#/components/schemas/_OpenAPIGenBaseModel")],
                     .obj inner]) ∧
       ∀ k v, (k, v) ∈ C6_wit_m →
         (if k = "title" ∨ k = "description"
          then dGet (inherit_fom_basemodel C6_wit_m) k = some v
          else dGet inner k = some v))) :=
  ⟨rfl, C6_root_composition C6_wit_anc C6_wit_schemas 1 "Root" C6_wit_m C6_wit_doc
    rfl (by decide) rfl (by decide) (by decide) rfl⟩

theorem dHas_dSet_self (s : Dict) (k : String) (v : JVal) :
    dHas (dSet s k v) k = true := by
  unfold dHas
  rw [show aGet (dSet s k v) k = some v from dGet_dSet_self s k v]
  rfl

theorem format_pass_spec :
    ∀ (l l2 : Dict), format_pass l = .ok l2 →
      l2.map Prod.fst = l.map Prod.fst ∧
      ∀ k v, aGet l k = some v →
        ∃ v2, aGet l2 k = some v2 ∧ set_format_prop v = .ok v2
  | [], l2, h => by
    simp only [format_pass, Except.ok.injEq] at h
    subst h
    refine ⟨rfl, ?_⟩
    intro k v hv
    simp [aGet] at hv
  | (k0, v0) :: rest, l2, h => by
    simp only [format_pass] at h
    cases hf : set_format_prop v0 with
    | error e =>
      simp only [hf] at h
      exact absurd h (by simp)
    | ok v2 =>
      simp only [hf] at h
      cases hr : format_pass rest with
      | error e =>
        simp only [hr] at h
        exact absurd h (by simp)
      | ok rest2 =>
        simp only [hr, Except.ok.injEq] at h
        subst h
        obtain ⟨hk, hm⟩ := format_pass_spec rest rest2 hr
        refine ⟨by simp [hk], ?_⟩
        intro k v hv
        by_cases hkk : k0 = k
        · subst hkk
          rw [aGet_cons_self] at hv
          injection hv with hv
          subst hv
          exact ⟨v2, aGet_cons_self _ _ _, hf⟩
        · rw [aGet_cons_ne _ _ hkk] at hv
          obtain ⟨w2, hw, hsf⟩ := hm k v hv
          refine ⟨w2, ?_, hsf⟩
          rw [aGet_cons_ne _ _ hkk]
          exact hw

theorem set_format_obj_pres (t : Dict) (v : JVal) (h : set_format (.obj t) = .ok v)
    (k : String) (hk1 : k ≠ "format") (hk2 : k ≠ "items") :
    ∃ t2, v = .obj t2 ∧ dGet t2 k = dGet t k := by
  rw [set_format] at h
  split at h
  · injection h with h
    exact ⟨t, h.symm, rfl⟩
  · split at h
    · exact absurd h (by simp)
    · split at h
      · injection h with h
        exact ⟨_, h.symm, dGet_dSet_ne t _ hk1.symm⟩
      · split at h
        · injection h with h
          exact ⟨_, h.symm, dGet_dSet_ne t _ hk1.symm⟩
        · split at h
          · split at h
            · exact absurd h (by simp)
            · split at h
              · split at h
                · injection h with h
                  exact ⟨_, h.symm, dGet_dSet_ne t _ hk2.symm⟩
                · exact absurd h (by simp)
              · injection h with h
                exact ⟨t, h.symm, rfl⟩
          · injection h with h
            exact ⟨t, h.symm, rfl⟩

theorem sfp_obj_pres (t : Dict) (v : JVal) (h : set_format_prop (.obj t) = .ok v)
    (k : String) (hk1 : k ≠ "format") (hk2 : k ≠ "items") (hk3 : k ≠ "anyOf") :
    ∃ t2, v = .obj t2 ∧ dGet t2 k = dGet t k := by
  rw [set_format_prop] at h
  split at h
  · rename_i p2 hsf
    injection h with h
    subst h
    exact set_format_obj_pres t p2 hsf k hk1 hk2
  · split at h
    · split at h
      · split at h
        · injection h with h
          exact ⟨_, h.symm, dGet_dSet_ne t _ hk3.symm⟩
        · exact absurd h (by simp)
      · exact absurd h (by simp)
    · injection h with h
      exact ⟨t, h.symm, rfl⟩
  · exact absurd h (by simp)

theorem local_props_top_inv (s props : Dict)
    (h : local_props s = .ok (some (props, .top))) :
    dGet s "properties" = some (.obj props) := by
  unfold local_props at h
  split at h
  · split at h
    · rename_i props2 hp
      simp only [Except.ok.injEq, Option.some.injEq, Prod.mk.injEq] at h
      rw [← h.1]
      exact hp
    · exact absurd h (by simp)
  · split at h
    · exact absurd h (by simp)
    · split at h
      · exact absurd h (by simp)
      · split at h
        · exact absurd h (by simp)
        · split at h
          · exact absurd h (by simp)
          · simp at h
          · exact absurd h (by simp)
        · exact absurd h (by simp)
      · exact absurd h (by simp)

theorem local_props_comp_inv (s props : Dict)
    (h : local_props s = .ok (some (props, .comp))) :
    dHas s "properties" = false ∧ dHas s "enum" = false ∧
    ∃ l inner, dGet s "allOf" = some (.arr l) ∧ l.get? 1 = some (.obj inner) ∧
      dGet inner "properties" = some (.obj props) := by
  unfold local_props at h
  split at h
  · rename_i hp
    split at h
    · simp at h
    · exact absurd h (by simp)
  · rename_i hp
    split at h
    · exact absurd h (by simp)
    · rename_i he
      split at h
      · exact absurd h (by simp)
      · rename_i l hall
        split at h
        · exact absurd h (by simp)
        · rename_i inner hget
          split at h
          · exact absurd h (by simp)
          · rename_i props2 hip
            simp only [Except.ok.injEq, Option.some.injEq, Prod.mk.injEq] at h
            rw [Bool.not_eq_true] at hp he
            exact ⟨hp, he, l, inner, hall, hget, h.1 ▸ hip⟩
          · exact absurd h (by simp)
        · exact absurd h (by simp)
      · exact absurd h (by simp)

theorem local_props_dSet_other (s : Dict) (k : String) (v : JVal)
    (h1 : k ≠ "properties") (h2 : k ≠ "enum") (h3 : k ≠ "allOf") :
    local_props (dSet s k v) = local_props s := by
  unfold local_props
  rw [dHas_dSet_ne s v h1, dGet_dSet_ne s v h1, dHas_dSet_ne s v h2,
    dGet_dSet_ne s v h3]

theorem local_props_write (s props : Dict) (loc : PLoc) (P : Dict)
    (h : local_props s = .ok (some (props, loc))) :
    local_props (write_props s loc P) = .ok (some (P, loc)) := by
  cases loc with
  | top =>
    show local_props (dSet s "properties" (.obj P)) = .ok (some (P, .top))
    unfold local_props
    rw [dHas_dSet_self, if_pos rfl, dGet_dSet_self]
  | comp =>
    obtain ⟨hnp, hne, l, inner, hall, hget, _⟩ := local_props_comp_inv s props h
    have hw : write_props s .comp P =
        dSet s "allOf" (.arr (l.set 1 (.obj (dSet inner "properties" (.obj P))))) := by
      unfold write_props
      simp only [hall, hget]
    rw [hw]
    have e1 : dHas (dSet s "allOf"
        (.arr (l.set 1 (.obj (dSet inner "properties" (.obj P)))))) "properties"
        = false := by
      rw [dHas_dSet_ne s _ (by decide)]
      exact hnp
    have e2 : dHas (dSet s "allOf"
        (.arr (l.set 1 (.obj (dSet inner "properties" (.obj P)))))) "enum"
        = false := by
      rw [dHas_dSet_ne s _ (by decide)]
      exact hne
    have e3 : dGet (dSet s "allOf"
        (.arr (l.set 1 (.obj (dSet inner "properties" (.obj P)))))) "allOf"
        = some (.arr (l.set 1 (.obj (dSet inner "properties" (.obj P))))) :=
      dGet_dSet_self s _ _
    have e4 : (l.set 1 (.obj (dSet inner "properties" (.obj P)))).get? 1
        = some (.obj (dSet inner "properties" (.obj P))) :=
      get1_set1 l _ _ hget
    have e5 : dGet (dSet inner "properties" (.obj P)) "properties"
        = some (.obj P) := dGet_dSet_self inner _ _
    simp only [local_props, e1, e2, e3, e4, e5, Bool.false_eq_true, if_false]

theorem set_format_plain (o : Dict) (h1 : dHas o "$ref" = false)
    (h2 : dGet o "type" = some (.str "string")) :
    set_format (.obj o) = .ok (.obj o) := by
  rw [set_format]
  rw [if_neg (by rw [h1]; exact Bool.false_ne_true)]
  simp only [h2]
  rw [if_neg (by simp), if_neg (by simp), if_neg (by simp)]

theorem sfp_plain (o : Dict) (h1 : dHas o "$ref" = false)
    (h2 : dGet o "type" = some (.str "string")) :
    set_format_prop (.obj o) = .ok (.obj o) := by
  simp only [set_format_prop, set_format_plain o h1 h2]

/-- C7: for a non-enum entry the normalizer works on the entry's local
properties — the extension object of a composition (`allOf[1]`), the top
level otherwise — and the rewritten entry keeps them in the same place:
when a `type` property exists (as an object) it comes out marked
`readOnly: true`, and when none exists the exact property
`{title: Type, default: name, type: string, pattern: ^name$,
readOnly: true}` is synthesized under the key `type`. -/
theorem C7_type_identity (name : String) (s s2 props : Dict) (loc : PLoc)
    (hnd : (props.map Prod.fst).Nodup)
    (hlp : local_props s = .ok (some (props, loc)))
    (hrun : process_entry name s = .ok s2) :
    ∃ props3, local_props s2 = .ok (some (props3, loc)) ∧
      (∀ t, dGet props "type" = some (.obj t) →
        ∃ t2, dGet props3 "type" = some (.obj t2) ∧
          dGet t2 "readOnly" = some (.bool true)) ∧
      (dGet props "type" = none →
        dGet props3 "type" = some (.obj
          [("title", .str "Type"), ("default", .str name), ("type", .str "string"),
           ("pattern", .str ("^" ++ name ++ "$")), ("readOnly", .bool true)])) := by
  simp only [process_entry, hlp] at hrun
  have hlp1 : local_props (dSet s "discriminator" (.obj [("propertyName", .str "type")]))
      = .ok (some (props, loc)) := by
    rw [local_props_dSet_other s _ _ (by decide) (by decide) (by decide)]
    exact hlp
  cases hty : dGet props "type" with
  | some tv =>
    cases tv with
    | obj t =>
      simp only [hty] at hrun
      have hnd1 : (((dSet props "type" (.obj (dSet t "readOnly" (.bool true)))).map
          Prod.fst)).Nodup := nodup_keys_aSet "type" _ hnd
      cases hmap : format_pass (dSet props "type" (.obj (dSet t "readOnly" (.bool true)))) with
      | error e =>
        simp only [hmap] at hrun
        exact absurd hrun (by simp)
      | ok props2 =>
        simp only [hmap] at hrun
        have hlp2 : local_props (write_props
            (dSet s "discriminator" (.obj [("propertyName", .str "type")])) loc props2)
            = .ok (some (props2, loc)) := local_props_write _ _ _ _ hlp1
        obtain ⟨hkeys, hmem⟩ := format_pass_spec _ props2 hmap
        have hnd2 : (props2.map Prod.fst).Nodup := by
          rw [hkeys]
          exact hnd1
        obtain ⟨v2, hv2, hsfp⟩ := hmem "type" (.obj (dSet t "readOnly" (.bool true)))
          (dGet_dSet_self props "type" _)
        obtain ⟨t2, hv2e, hpres⟩ := sfp_obj_pres _ v2 hsfp "readOnly"
          (by decide) (by decide) (by decide)
        subst hv2e
        have hro : dGet t2 "readOnly" = some (.bool true) := by
          rw [hpres]
          exact dGet_dSet_self t "readOnly" _
        cases hreq : required_for_sort (write_props
            (dSet s "discriminator" (.obj [("propertyName", .str "type")])) loc props2) with
        | error e =>
          simp only [hreq] at hrun
          exact absurd hrun (by simp)
        | ok o =>
          cases o with
          | none =>
            simp only [hreq, Except.ok.injEq] at hrun
            subst hrun
            refine ⟨props2, hlp2, ?_, ?_⟩
            · intro t3 _
              exact ⟨t2, hv2, hro⟩
            · intro hnone
              exact absurd hnone (by simp)
          | some required =>
            simp only [hreq, Except.ok.injEq] at hrun
            subst hrun
            refine ⟨_, local_props_write _ _ _ _ hlp2, ?_, ?_⟩
            · intro t3 _
              refine ⟨t2, ?_, hro⟩
              exact (aGet_filter_append props2
                (fun kv => decide ((JVal.str kv.1) ∈ required)) "type" hnd2).trans hv2
            · intro hnone
              exact absurd hnone (by simp)
    | str s0 =>
      simp only [hty] at hrun
      exact absurd hrun (by simp)
    | int i =>
      simp only [hty] at hrun
      exact absurd hrun (by simp)
    | bool b =>
      simp only [hty] at hrun
      exact absurd hrun (by simp)
    | null =>
      simp only [hty] at hrun
      exact absurd hrun (by simp)
    | arr a =>
      simp only [hty] at hrun
      exact absurd hrun (by simp)
  | none =>
    simp only [hty] at hrun
    have hnd1 : (((dSet props "type" (.obj
        [("title", .str "Type"), ("default", .str name), ("type", .str "string"),
         ("pattern", .str ("^" ++ name ++ "$")), ("readOnly", .bool true)])).map
        Prod.fst)).Nodup := nodup_keys_aSet "type" _ hnd
    cases hmap : format_pass (dSet props "type" (.obj
        [("title", .str "Type"), ("default", .str name), ("type", .str "string"),
         ("pattern", .str ("^" ++ name ++ "$")), ("readOnly", .bool true)])) with
    | error e =>
      simp only [hmap] at hrun
      exact absurd hrun (by simp)
    | ok props2 =>
      simp only [hmap] at hrun
      have hlp2 : local_props (write_props
          (dSet s "discriminator" (.obj [("propertyName", .str "type")])) loc props2)
          = .ok (some (props2, loc)) := local_props_write _ _ _ _ hlp1
      obtain ⟨hkeys, hmem⟩ := format_pass_spec _ props2 hmap
      have hnd2 : (props2.map Prod.fst).Nodup := by
        rw [hkeys]
        exact hnd1
      obtain ⟨v2, hv2, hsfp⟩ := hmem "type" (.obj
        [("title", .str "Type"), ("default", .str name), ("type", .str "string"),
         ("pattern", .str ("^" ++ name ++ "$")), ("readOnly", .bool true)])
        (dGet_dSet_self props "type" _)
      have hfix : set_format_prop (.obj
          [("title", .str "Type"), ("default", .str name), ("type", .str "string"),
           ("pattern", .str ("^" ++ name ++ "$")), ("readOnly", .bool true)])
          = .ok (.obj
          [("title", .str "Type"), ("default", .str name), ("type", .str "string"),
           ("pattern", .str ("^" ++ name ++ "$")), ("readOnly", .bool true)]) :=
        sfp_plain _ rfl rfl
      rw [hfix] at hsfp
      injection hsfp with hsfp
      subst hsfp
      cases hreq : required_for_sort (write_props
          (dSet s "discriminator" (.obj [("propertyName", .str "type")])) loc props2) with
      | error e =>
        simp only [hreq] at hrun
        exact absurd hrun (by simp)
      | ok o =>
        cases o with
        | none =>
          simp only [hreq, Except.ok.injEq] at hrun
          subst hrun
          refine ⟨props2, hlp2, ?_, ?_⟩
          · intro t3 ht3
            exact absurd ht3 (by simp)
          · intro _
            exact hv2
        | some required =>
          simp only [hreq, Except.ok.injEq] at hrun
          subst hrun
          refine ⟨_, local_props_write _ _ _ _ hlp2, ?_, ?_⟩
          · intro t3 ht3
            exact absurd ht3 (by simp)
          · intro _
            exact (aGet_filter_append props2
              (fun kv => decide ((JVal.str kv.1) ∈ required)) "type" hnd2).trans hv2

/-- An entry for the C7 witness: a top-level property table declaring a
`type` property (an object without `readOnly`). -/
def C7_wit_s : Dict :=
  [("properties", .obj [("type", .obj [("type", .str "string"), ("default", .str "X")])])]

/-- What `process_entry` produces on `C7_wit_s`: the `type` property is
marked `readOnly` and the discriminator is added. -/
def C7_wit_s2 : Dict :=
  [("properties", .obj [("type", .obj
      [("type", .str "string"), ("default", .str "X"), ("readOnly", .bool true)])]),
   ("discriminator", .obj [("propertyName", .str "type")])]

theorem C7_wit_run : process_entry "X" C7_wit_s = .ok C7_wit_s2 := by
  have hfp : format_pass [("type", .obj
      [("type", .str "string"), ("default", .str "X"), ("readOnly", .bool true)])]
      = .ok [("type", .obj
      [("type", .str "string"), ("default", .str "X"), ("readOnly", .bool true)])] := by
    simp only [format_pass,
      sfp_plain [("type", .str "string"), ("default", .str "X"), ("readOnly", .bool true)]
        rfl rfl]
  show (match format_pass [("type", .obj
          [("type", .str "string"), ("default", .str "X"), ("readOnly", .bool true)])] with
    | Except.error e => Except.error e
    | Except.ok props2 =>
      match required_for_sort (write_props
          [("properties", .obj [("type", .obj [("type", .str "string"), ("default", .str "X")])]),
           ("discriminator", .obj [("propertyName", .str "type")])] PLoc.top props2) with
      | .error e => .error e
      | .ok none => .ok (write_props
          [("properties", .obj [("type", .obj [("type", .str "string"), ("default", .str "X")])]),
           ("discriminator", .obj [("propertyName", .str "type")])] PLoc.top props2)
      | .ok (some required) => .ok (write_props (write_props
          [("properties", .obj [("type", .obj [("type", .str "string"), ("default", .str "X")])]),
           ("discriminator", .obj [("propertyName", .str "type")])] PLoc.top props2) PLoc.top
          (props2.filter (fun (kv : String × JVal) => decide ((JVal.str kv.1) ∈ required)) ++
           props2.filter (fun (kv : String × JVal) =>
             !(decide ((JVal.str kv.1) ∈ required)))))) = .ok C7_wit_s2
  rw [hfp]
  rfl

/-- Witness for C7: the type-identity theorem applied to the concrete
entry `C7_wit_s` under the name `X`. -/
theorem C7_witness :
    local_props C7_wit_s =
      .ok (some ([("type", .obj [("type", .str "string"), ("default", .str "X")])], .top)) ∧
    (∃ props3, local_props C7_wit_s2 = .ok (some (props3, PLoc.top)) ∧
      (∀ t, dGet [("type", JVal.obj [("type", .str "string"), ("default", .str "X")])] "type"
          = some (.obj t) →
        ∃ t2, dGet props3 "type" = some (.obj t2) ∧
          dGet t2 "readOnly" = some (.bool true)) ∧
      (dGet [("type", JVal.obj [("type", .str "string"), ("default", .str "X")])] "type" = none →
        dGet props3 "type" = some (.obj
          [("title", .str "Type"), ("default", .str "X"), ("type", .str "string"),
           ("pattern", .str ("^" ++ "X" ++ "$")), ("readOnly", .bool true)]))) :=
  ⟨rfl, C7_type_identity "X" C7_wit_s C7_wit_s2
    [("type", .obj [("type", .str "string"), ("default", .str "X")])] .top
    (by decide) rfl C7_wit_run⟩
